import Mathlib

/-!
Verification of the pretty-printing core of the rcl repository
(src/pprint.rs together with src/markup.rs).

The embedding is shallow: Rust strings are modelled as lists of characters
(`List Char`), the mutable `Printer` becomes explicit state passing, and the
recursive `Doc::print_to` becomes a pure function returning the new printer
state together with the `PrintResult`.  Buffer positions are counted in
characters where the Rust code counts bytes; for the rollback in `try_` this
is equivalent because the saved position is always a boundary of the saved
prefix.  Debug assertions of the source are modelled by their release
behaviour (they do not alter state).
-/

set_option maxHeartbeats 1000000
set_option linter.unusedVariables false

namespace Rcl

/-- Markup tags, from src/markup.rs (enum Markup). -/
inductive Markup where
  | None
  | Error
  | Warning
  | Trace
  | Highlight
  | Builtin
  | Comment
  | Identifier
  | Keyword
  | Number
  | String
  | Type
  deriving DecidableEq, Repr

/-- Markup modes, from src/markup.rs (enum MarkupMode). -/
inductive MarkupMode where
  | None
  | Ansi
  deriving DecidableEq, Repr

/-- The ANSI escape code to switch to a style, from src/markup.rs (switch_ansi). -/
def switch_ansi (markup : Markup) : List Char :=
  match markup with
  | Markup.None => ("\x1b[0m").toList
  | Markup.Error => ("\x1b[31;1m").toList
  | Markup.Warning => ("\x1b[33;1m").toList
  | Markup.Trace => ("\x1b[34;1m").toList
  | Markup.Highlight => ("\x1b[37m").toList
  | Markup.Builtin => ("\x1b[31m").toList
  | Markup.Comment => ("\x1b[37m").toList
  | Markup.Identifier => ("\x1b[34m").toList
  | Markup.Keyword => ("\x1b[32m").toList
  | Markup.Number => ("\x1b[36m").toList
  | Markup.String => ("\x1b[31m").toList
  | Markup.Type => ("\x1b[35m").toList

/-- Modelled from the spec: MarkupMode::get_switch is called by
src/pprint.rs (Printer::with_markup) but is absent from src/markup.rs.
Per section 4.2 of the spec: when markup mode is off, both transition
sequences are empty; no transition is emitted if the tag is unchanged;
otherwise the transition sequence for the new tag is emitted. -/
def MarkupMode.get_switch (mode : MarkupMode) (prev next : Option Markup) : List Char :=
  match mode with
  | MarkupMode.None => []
  | MarkupMode.Ansi =>
      if prev = next then [] else switch_ansi (next.getD Markup.None)

/-- Result of printing in a particular mode, from src/pprint.rs (PrintResult). -/
inductive PrintResult where
  | Fits
  | Overflow
  deriving DecidableEq, Repr

/-- The Ord instance of PrintResult in the source returns the worst result
(Overflow) as maximum; this is that maximum. -/
def PrintResult.max : PrintResult → PrintResult → PrintResult
  | PrintResult.Fits, PrintResult.Fits => PrintResult.Fits
  | _, _ => PrintResult.Overflow

def PrintResult.is_overflow : PrintResult → Bool
  | PrintResult.Overflow => true
  | PrintResult.Fits => false

/-- Wide or tall formatting mode, from src/pprint.rs (enum Mode). -/
inductive Mode where
  | Wide
  | Tall
  deriving DecidableEq, Repr

/-- Pretty printer configuration, from src/pprint.rs (struct Config). -/
structure Config where
  width : Nat
  markup : MarkupMode
  deriving DecidableEq, Repr

/-- Printer state, from src/pprint.rs (struct Printer). -/
@[ext] structure Printer where
  out : List Char
  width : Nat
  line_width : Nat
  indent : Nat
  needs_indent : Bool
  markup : Option Markup
  markup_mode : MarkupMode
  deriving DecidableEq, Repr

namespace Printer

/-- Printer::new. -/
def new (config : Config) : Printer :=
  { out := []
    width := config.width
    line_width := 0
    indent := 0
    needs_indent := true
    markup := none
    markup_mode := config.markup }

/-- Printer::into_inner. -/
def into_inner (p : Printer) : List Char := p.out

/-- Printer::try_: execute f against this printer, and if the result was too
wide, roll back the buffer (by truncating to the saved length), the line
width and the pending indent flag. -/
def try_ (p : Printer) (f : Printer → Printer × PrintResult) : Printer × PrintResult :=
  let len := p.out.length
  let line_width := p.line_width
  let needs_indent := p.needs_indent
  let pr := f p
  if pr.2.is_overflow then
    ({ pr.1 with
        out := pr.1.out.take len
        line_width := line_width
        needs_indent := needs_indent }, pr.2)
  else pr

/-- Printer::indented: execute f under indentation increased by two. -/
def indented (p : Printer) (f : Printer → Printer × PrintResult) : Printer × PrintResult :=
  let pr := f { p with indent := p.indent + 2 }
  ({ pr.1 with indent := pr.1.indent - 2 }, pr.2)

/-- Printer::with_markup: emit the switch to the new markup, run f, restore
the previous markup and emit the switch back. -/
def with_markup (p : Printer) (m : Markup) (f : Printer → Printer × PrintResult) :
    Printer × PrintResult :=
  let prev := p.markup
  let next : Option Markup := some m
  let switch_on := p.markup_mode.get_switch prev next
  let switch_off := p.markup_mode.get_switch next prev
  let pr := f { p with out := p.out ++ switch_on, markup := next }
  ({ pr.1 with markup := prev, out := pr.1.out ++ switch_off }, pr.2)

/-- Printer::write_indent: write the pending indentation, if needed. -/
def write_indent (p : Printer) : Printer :=
  if p.needs_indent then
    { p with
        out := p.out ++ List.replicate p.indent ' '
        line_width := p.line_width + p.indent
        needs_indent := false }
  else p

/-- Printer::fits: whether the current line still fits. -/
def fits (p : Printer) : PrintResult :=
  if p.width < p.line_width then PrintResult.Overflow else PrintResult.Fits

/-- Printer::push_str. -/
def push_str (p : Printer) (value : List Char) (width : Nat) : Printer × PrintResult :=
  let p := p.write_indent
  let p := { p with out := p.out ++ value, line_width := p.line_width + width }
  (p, p.fits)

/-- Printer::push_char. -/
def push_char (p : Printer) (ch : Char) : Printer × PrintResult :=
  let p := p.write_indent
  let p := { p with out := p.out ++ [ch], line_width := p.line_width + 1 }
  (p, p.fits)

/-- Drop the trailing spaces of a buffer, as the trim_end_matches call in
Printer::newline does. -/
def trim_spaces (l : List Char) : List Char :=
  (l.reverse.dropWhile (fun c => c = ' ')).reverse

/-- Printer::newline: trim trailing spaces of the current line, emit the
line break, reset the line width and mark indentation as pending.  Always
reports Fits. -/
def newline (p : Printer) : Printer × PrintResult :=
  ({ p with
      out := trim_spaces p.out ++ ['\n']
      line_width := 0
      needs_indent := true }, PrintResult.Fits)

/-- Printer::raw_newline: a newline without indentation after it. -/
def raw_newline (p : Printer) : Printer × PrintResult :=
  let pr := p.newline
  ({ pr.1 with needs_indent := false }, pr.2)

/-- Printer::flush_newline: emit a newline unless still at the start of a
line; returns whether it was emitted. -/
def flush_newline (p : Printer) : Printer × Bool :=
  if p.needs_indent then (p, false)
  else ((p.newline).1, true)

end Printer

/-- The document tree, from src/pprint.rs (enum Doc).  The Str and Strng
constructors are the borrowed str and the owned String variants of the
source; both hold their content and its precomputed display width. -/
inductive Doc where
  | Str (content : List Char) (width : Nat)
  | Strng (content : List Char) (width : Nat)
  | WhenTall (content : List Char) (width : Nat)
  | Sep
  | SoftBreak
  | HardBreak
  | RawBreak
  | Concat (children : List Doc)
  | Group (inner : Doc)
  | Indent (inner : Doc)
  | FlushIndent (inner : Doc)
  | Markup (m : Markup) (inner : Doc)

/-- Doc::empty: the concat of the empty vector. -/
def Doc.empty : Doc := Doc.Concat []

mutual

/-- Boolean structural equality on Doc, spelled out because deriving does
not handle the nested List of children. -/
def Doc.beq : Doc → Doc → Bool
  | Doc.Str c w, Doc.Str c2 w2 => c == c2 && w == w2
  | Doc.Strng c w, Doc.Strng c2 w2 => c == c2 && w == w2
  | Doc.WhenTall c w, Doc.WhenTall c2 w2 => c == c2 && w == w2
  | Doc.Sep, Doc.Sep => true
  | Doc.SoftBreak, Doc.SoftBreak => true
  | Doc.HardBreak, Doc.HardBreak => true
  | Doc.RawBreak, Doc.RawBreak => true
  | Doc.Concat xs, Doc.Concat ys => Doc.beq_list xs ys
  | Doc.Group x, Doc.Group y => Doc.beq x y
  | Doc.Indent x, Doc.Indent y => Doc.beq x y
  | Doc.FlushIndent x, Doc.FlushIndent y => Doc.beq x y
  | Doc.Markup m x, Doc.Markup m2 y => m == m2 && Doc.beq x y
  | _, _ => false

/-- Element-wise Doc.beq on lists of children. -/
def Doc.beq_list : List Doc → List Doc → Bool
  | [], [] => true
  | x :: xs, y :: ys => Doc.beq x y && Doc.beq_list xs ys
  | _, _ => false

end

mutual

theorem Doc.beq_iff : ∀ a b : Doc, Doc.beq a b = true ↔ a = b
  | a, b => by
    cases a <;> cases b <;>
      simp only [Doc.beq, Bool.and_eq_true, beq_iff_eq, Doc.Str.injEq, Doc.Strng.injEq,
        Doc.WhenTall.injEq, Doc.Concat.injEq, Doc.Group.injEq, Doc.Indent.injEq,
        Doc.FlushIndent.injEq, Doc.Markup.injEq, reduceCtorEq, iff_self, true_iff,
        false_iff, not_false_eq_true, iff_true] <;>
      first
      | rfl
      | exact fun h => Doc.noConfusion h
      | (first
          | (rename_i x y; exact Doc.beq_iff x y)
          | (rename_i xs ys; exact Doc.beq_list_iff xs ys)
          | (constructor
             · rintro ⟨h1, h2⟩
               exact ⟨h1, (Doc.beq_iff _ _).1 h2⟩
             · rintro ⟨h1, h2⟩
               exact ⟨h1, (Doc.beq_iff _ _).2 h2⟩))

theorem Doc.beq_list_iff : ∀ xs ys : List Doc, Doc.beq_list xs ys = true ↔ xs = ys
  | [], [] => by simp [Doc.beq_list]
  | [], _ :: _ => by simp [Doc.beq_list]
  | _ :: _, [] => by simp [Doc.beq_list]
  | x :: xs, y :: ys => by
    simp only [Doc.beq_list, Bool.and_eq_true, List.cons.injEq]
    constructor
    · rintro ⟨h1, h2⟩
      exact ⟨(Doc.beq_iff x y).1 h1, (Doc.beq_list_iff xs ys).1 h2⟩
    · rintro ⟨h1, h2⟩
      exact ⟨(Doc.beq_iff x y).2 h1, (Doc.beq_list_iff xs ys).2 h2⟩

end

instance Doc.instDecEq : DecidableEq Doc :=
  fun a b => decidable_of_iff _ (Doc.beq_iff a b)

mutual

/-- Doc::is_forced_tall: whether any node in the tree forces tall mode. -/
def Doc.is_forced_tall : Doc → Bool
  | Doc.HardBreak => true
  | Doc.RawBreak => true
  | Doc.Concat children => Doc.any_forced children
  | Doc.Group inner => inner.is_forced_tall
  | Doc.Indent inner => inner.is_forced_tall
  | Doc.FlushIndent inner => inner.is_forced_tall
  | Doc.Markup _ inner => inner.is_forced_tall
  | _ => false

/-- The children.iter().any of Doc::is_forced_tall on a Concat node. -/
def Doc.any_forced : List Doc → Bool
  | [] => false
  | d :: ds => d.is_forced_tall || Doc.any_forced ds

end

mutual

/-- Doc::print_to: print the document to the given printer.  The two
unreachable arms of the source (HardBreak and RawBreak in wide mode, which
panic in a debug build) are modelled as no-ops; they are provably not
reached when rendering well-formed trees, because a hard break forces every
enclosing group tall. -/
def Doc.print_to : Doc → Printer → Mode → Printer × PrintResult
  | Doc.Str content width, p, _ => p.push_str content width
  | Doc.Strng content width, p, _ => p.push_str content width
  | Doc.WhenTall content width, p, mode =>
      match mode with
      | Mode.Tall => p.push_str content width
      | Mode.Wide => (p, PrintResult.Fits)
  | Doc.Sep, p, mode =>
      match mode with
      | Mode.Tall => p.newline
      | Mode.Wide => p.push_char ' '
  | Doc.SoftBreak, p, mode =>
      match mode with
      | Mode.Tall => p.newline
      | Mode.Wide => (p, PrintResult.Fits)
  | Doc.HardBreak, p, mode =>
      match mode with
      | Mode.Tall => p.newline
      | Mode.Wide => (p, PrintResult.Fits)
  | Doc.RawBreak, p, mode =>
      match mode with
      | Mode.Tall => p.raw_newline
      | Mode.Wide => (p, PrintResult.Fits)
  | Doc.Concat children, p, mode => Doc.print_concat children p mode PrintResult.Fits
  | Doc.Group inner, p, mode =>
      if inner.is_forced_tall then
        inner.print_to p mode
      else
        match mode with
        | Mode.Wide => inner.print_to p Mode.Wide
        | Mode.Tall =>
            let pr := p.try_ (fun q => inner.print_to q Mode.Wide)
            match pr.2 with
            | PrintResult.Overflow => inner.print_to pr.1 Mode.Tall
            | PrintResult.Fits => (pr.1, PrintResult.Fits)
  | Doc.Indent inner, p, mode =>
      match mode with
      | Mode.Wide => inner.print_to p Mode.Wide
      | Mode.Tall => p.indented (fun q => inner.print_to q Mode.Tall)
  | Doc.FlushIndent inner, p, mode =>
      match mode with
      | Mode.Wide => inner.print_to p Mode.Wide
      | Mode.Tall =>
          let pb := p.flush_newline
          if pb.2 then pb.1.indented (fun q => inner.print_to q Mode.Tall)
          else inner.print_to pb.1 Mode.Tall
  | Doc.Markup m inner, p, mode => p.with_markup m (fun q => inner.print_to q mode)

/-- The children.iter().fold of Doc::print_to on a Concat node, threading
the printer and accumulating the worst PrintResult. -/
def Doc.print_concat : List Doc → Printer → Mode → PrintResult → Printer × PrintResult
  | [], p, _, r => (p, r)
  | d :: ds, p, mode, r =>
      let pr := d.print_to p mode
      Doc.print_concat ds pr.1 mode (pr.2.max r)

end

/-- Doc::println: pretty-print the document starting in tall mode and ensure
the output ends in a newline via flush_newline. -/
def Doc.println (d : Doc) (config : Config) : List Char :=
  let p := Printer.new config
  let pr := d.print_to p Mode.Tall
  let pb := pr.1.flush_newline
  pb.1.into_inner

/-- The Add implementation for Doc from src/pprint.rs: merge two documents
into the flattest possible Concat representation. -/
def Doc.add : Doc → Doc → Doc
  | Doc.Concat [], y => y
  | x, Doc.Concat [] => x
  | Doc.Concat xs, Doc.Concat ys => Doc.Concat (xs ++ ys)
  | Doc.Concat xs, y => Doc.Concat (xs ++ [y])
  | x, Doc.Concat ys => Doc.Concat (x :: ys)
  | Doc.Indent x, Doc.Indent y => Doc.Indent (Doc.add x y)
  | x, y => Doc.Concat [x, y]

instance : Add Doc := ⟨Doc.add⟩

mutual

/-- Doc::into_owned: clone all strings and make them owned. -/
def Doc.into_owned : Doc → Doc
  | Doc.Str content width => Doc.Strng content width
  | Doc.Strng content width => Doc.Strng content width
  | Doc.WhenTall content width => Doc.WhenTall content width
  | Doc.Sep => Doc.Sep
  | Doc.SoftBreak => Doc.SoftBreak
  | Doc.HardBreak => Doc.HardBreak
  | Doc.RawBreak => Doc.RawBreak
  | Doc.Concat children => Doc.Concat (Doc.into_owned_list children)
  | Doc.Group inner => Doc.Group inner.into_owned
  | Doc.Indent inner => Doc.Indent inner.into_owned
  | Doc.FlushIndent inner => Doc.FlushIndent inner.into_owned
  | Doc.Markup m inner => Doc.Markup m inner.into_owned

/-- The element-wise map of Doc::into_owned over the children of a Concat. -/
def Doc.into_owned_list : List Doc → List Doc
  | [] => []
  | d :: ds => d.into_owned :: Doc.into_owned_list ds

end

end Rcl

/-! ## Fidelity checks

The four unit tests of src/pprint.rs, replayed against the embedding. -/

namespace Rcl

/-- The document of the format_array_wide_tall test in src/pprint.rs. -/
def test_array : Doc :=
  Doc.Group (Doc.Concat [
    Doc.Str "[".toList 1,
    Doc.SoftBreak,
    Doc.Indent (Doc.Concat [
      Doc.Str "elem0".toList 5, Doc.Str ",".toList 1, Doc.Sep,
      Doc.Str "elem1".toList 5, Doc.Str ",".toList 1, Doc.Sep,
      Doc.Str "elem2".toList 5, Doc.WhenTall ",".toList 1]),
    Doc.SoftBreak,
    Doc.Str "]".toList 1])

/-- The document of the hard_break_forces_tall_mode test in src/pprint.rs. -/
def test_hard_break : Doc :=
  Doc.Group (Doc.Concat [
    Doc.Str "[".toList 1,
    Doc.Indent (Doc.Concat [
      Doc.HardBreak,
      Doc.Str "// Comment.".toList 11,
      Doc.SoftBreak,
      Doc.Str "elem0".toList 5]),
    Doc.SoftBreak,
    Doc.Str "]".toList 1])

/-- The inner document of the format_wide_in_tall test in src/pprint.rs. -/
def test_nested_inner : Doc :=
  Doc.Group (Doc.Concat [
    Doc.Str "[".toList 1,
    Doc.SoftBreak,
    Doc.Indent (Doc.Concat [
      Doc.Str "a".toList 1, Doc.Str ",".toList 1, Doc.Sep,
      Doc.Str "b".toList 1, Doc.Str ",".toList 1, Doc.Sep,
      Doc.Str "c".toList 1, Doc.WhenTall ",".toList 1]),
    Doc.SoftBreak,
    Doc.Str "]".toList 1])

/-- The outer document of the format_wide_in_tall test in src/pprint.rs. -/
def test_nested : Doc :=
  Doc.Group (Doc.Concat [
    Doc.Str "[".toList 1,
    Doc.SoftBreak,
    Doc.Indent (Doc.Concat [
      test_nested_inner, Doc.Str ",".toList 1, Doc.Sep,
      Doc.Str "elem0".toList 5, Doc.Str ",".toList 1, Doc.Sep,
      Doc.Str "elem1".toList 5, Doc.Str ",".toList 1, Doc.Sep,
      Doc.Str "elem2".toList 5, Doc.WhenTall ",".toList 1]),
    Doc.SoftBreak,
    Doc.Str "]".toList 1])

theorem fidelity_array_wide :
    test_array.println { width := 80, markup := MarkupMode.None } =
      "[elem0, elem1, elem2]\n".toList := by decide

theorem fidelity_array_tall :
    test_array.println { width := 5, markup := MarkupMode.None } =
      "[\n  elem0,\n  elem1,\n  elem2,\n]\n".toList := by decide

theorem fidelity_hard_break :
    test_hard_break.println { width := 80, markup := MarkupMode.None } =
      "[\n  // Comment.\n  elem0\n]\n".toList := by decide

theorem fidelity_nested_wide :
    test_nested.println { width := 80, markup := MarkupMode.None } =
      "[[a, b, c], elem0, elem1, elem2]\n".toList := by decide

theorem fidelity_nested_mid :
    test_nested.println { width := 15, markup := MarkupMode.None } =
      "[\n  [a, b, c],\n  elem0,\n  elem1,\n  elem2,\n]\n".toList := by decide

theorem fidelity_nested_tall :
    test_nested.println { width := 8, markup := MarkupMode.None } =
      "[\n  [\n    a,\n    b,\n    c,\n  ],\n  elem0,\n  elem1,\n  elem2,\n]\n".toList := by
  decide

end Rcl

/-! ## Unfolding equations for the renderer

One definitional equation of Doc.print_to per constructor and mode, so the
later proofs can rewrite step by step. -/

namespace Rcl

theorem Doc.print_str (c : List Char) (w : Nat) (p : Printer) (m : Mode) :
    (Doc.Str c w).print_to p m = p.push_str c w := rfl

theorem Doc.print_strng (c : List Char) (w : Nat) (p : Printer) (m : Mode) :
    (Doc.Strng c w).print_to p m = p.push_str c w := rfl

theorem Doc.print_when_tall_wide (c : List Char) (w : Nat) (p : Printer) :
    (Doc.WhenTall c w).print_to p Mode.Wide = (p, PrintResult.Fits) := rfl

theorem Doc.print_when_tall_tall (c : List Char) (w : Nat) (p : Printer) :
    (Doc.WhenTall c w).print_to p Mode.Tall = p.push_str c w := rfl

theorem Doc.print_sep_wide (p : Printer) :
    Doc.Sep.print_to p Mode.Wide = p.push_char ' ' := rfl

theorem Doc.print_sep_tall (p : Printer) :
    Doc.Sep.print_to p Mode.Tall = p.newline := rfl

theorem Doc.print_soft_wide (p : Printer) :
    Doc.SoftBreak.print_to p Mode.Wide = (p, PrintResult.Fits) := rfl

theorem Doc.print_soft_tall (p : Printer) :
    Doc.SoftBreak.print_to p Mode.Tall = p.newline := rfl

theorem Doc.print_hard_wide (p : Printer) :
    Doc.HardBreak.print_to p Mode.Wide = (p, PrintResult.Fits) := rfl

theorem Doc.print_hard_tall (p : Printer) :
    Doc.HardBreak.print_to p Mode.Tall = p.newline := rfl

theorem Doc.print_raw_wide (p : Printer) :
    Doc.RawBreak.print_to p Mode.Wide = (p, PrintResult.Fits) := rfl

theorem Doc.print_raw_tall (p : Printer) :
    Doc.RawBreak.print_to p Mode.Tall = p.raw_newline := rfl

theorem Doc.print_concat_eq (ds : List Doc) (p : Printer) (m : Mode) :
    (Doc.Concat ds).print_to p m = Doc.print_concat ds p m PrintResult.Fits := rfl

theorem Doc.print_concat_nil (p : Printer) (m : Mode) (r : PrintResult) :
    Doc.print_concat [] p m r = (p, r) := rfl

theorem Doc.print_concat_cons (d : Doc) (ds : List Doc) (p : Printer) (m : Mode)
    (r : PrintResult) :
    Doc.print_concat (d :: ds) p m r =
      Doc.print_concat ds (d.print_to p m).1 m ((d.print_to p m).2.max r) := rfl

theorem Doc.print_group_forced (inner : Doc) (p : Printer) (m : Mode)
    (h : inner.is_forced_tall = true) :
    (Doc.Group inner).print_to p m = inner.print_to p m := by
  show (if inner.is_forced_tall then inner.print_to p m else _) = _
  rw [h]
  simp

theorem Doc.print_group_wide (inner : Doc) (p : Printer)
    (h : inner.is_forced_tall = false) :
    (Doc.Group inner).print_to p Mode.Wide = inner.print_to p Mode.Wide := by
  show (if inner.is_forced_tall then _ else _) = _
  rw [h]
  simp

theorem Doc.print_group_tall (inner : Doc) (p : Printer)
    (h : inner.is_forced_tall = false) :
    (Doc.Group inner).print_to p Mode.Tall =
      (let pr := p.try_ (fun q => inner.print_to q Mode.Wide)
       match pr.2 with
       | PrintResult.Overflow => inner.print_to pr.1 Mode.Tall
       | PrintResult.Fits => (pr.1, PrintResult.Fits)) := by
  show (if inner.is_forced_tall then _ else _) = _
  rw [h]
  simp

theorem Doc.print_indent_wide (inner : Doc) (p : Printer) :
    (Doc.Indent inner).print_to p Mode.Wide = inner.print_to p Mode.Wide := rfl

theorem Doc.print_indent_tall (inner : Doc) (p : Printer) :
    (Doc.Indent inner).print_to p Mode.Tall =
      p.indented (fun q => inner.print_to q Mode.Tall) := rfl

theorem Doc.print_flush_wide (inner : Doc) (p : Printer) :
    (Doc.FlushIndent inner).print_to p Mode.Wide = inner.print_to p Mode.Wide := rfl

theorem Doc.print_flush_tall (inner : Doc) (p : Printer) :
    (Doc.FlushIndent inner).print_to p Mode.Tall =
      (let pb := p.flush_newline
       if pb.2 then pb.1.indented (fun q => inner.print_to q Mode.Tall)
       else inner.print_to pb.1 Mode.Tall) := rfl

theorem Doc.print_markup (mk : Rcl.Markup) (inner : Doc) (p : Printer) (m : Mode) :
    (Doc.Markup mk inner).print_to p m =
      p.with_markup mk (fun q => inner.print_to q m) := rfl

end Rcl

/-! ## Scoped state preservation

Printing never changes the indentation depth, the target width, the active
markup tag or the markup mode of the printer: indentation and markup are
restored by their scoped helpers, and nothing writes the other two. -/

namespace Rcl

/-- The four printer fields that print_to always restores. -/
def Printer.scoped_eq (p q : Printer) : Prop :=
  q.indent = p.indent ∧ q.width = p.width ∧ q.markup = p.markup ∧
    q.markup_mode = p.markup_mode

theorem Printer.scoped_eq_refl (p : Printer) : Printer.scoped_eq p p :=
  ⟨rfl, rfl, rfl, rfl⟩

theorem Printer.scoped_eq_trans {p q r : Printer}
    (h1 : Printer.scoped_eq p q) (h2 : Printer.scoped_eq q r) :
    Printer.scoped_eq p r :=
  ⟨h2.1.trans h1.1, h2.2.1.trans h1.2.1, h2.2.2.1.trans h1.2.2.1,
    h2.2.2.2.trans h1.2.2.2⟩

theorem Printer.write_indent_scoped (p : Printer) :
    Printer.scoped_eq p p.write_indent := by
  unfold Printer.write_indent
  split <;> exact ⟨rfl, rfl, rfl, rfl⟩

theorem Printer.push_str_scoped (p : Printer) (v : List Char) (w : Nat) :
    Printer.scoped_eq p (p.push_str v w).1 := by
  unfold Printer.push_str
  exact p.write_indent_scoped

theorem Printer.push_char_scoped (p : Printer) (ch : Char) :
    Printer.scoped_eq p (p.push_char ch).1 := by
  unfold Printer.push_char
  exact p.write_indent_scoped

theorem Printer.newline_scoped (p : Printer) :
    Printer.scoped_eq p (p.newline).1 := ⟨rfl, rfl, rfl, rfl⟩

theorem Printer.raw_newline_scoped (p : Printer) :
    Printer.scoped_eq p (p.raw_newline).1 := ⟨rfl, rfl, rfl, rfl⟩

theorem Printer.flush_newline_scoped (p : Printer) :
    Printer.scoped_eq p (p.flush_newline).1 := by
  unfold Printer.flush_newline
  split
  · exact Printer.scoped_eq_refl p
  · exact p.newline_scoped

/-- The rollback in try_ keeps the scoped fields that f left behind. -/
theorem Printer.try_scoped (p : Printer) (f : Printer → Printer × PrintResult) :
    Printer.scoped_eq (f p).1 (p.try_ f).1 := by
  simp only [Printer.try_]
  split
  · exact ⟨rfl, rfl, rfl, rfl⟩
  · exact Printer.scoped_eq_refl (f p).1

/-- The indented helper restores the indentation around f. -/
theorem Printer.indented_scoped (p : Printer) (f : Printer → Printer × PrintResult)
    (h : Printer.scoped_eq { p with indent := p.indent + 2 }
      (f { p with indent := p.indent + 2 }).1) :
    Printer.scoped_eq p (p.indented f).1 := by
  unfold Printer.indented
  refine ⟨?_, h.2.1, h.2.2.1, h.2.2.2⟩
  simp only
  rw [h.1]
  simp

/-- The with_markup helper restores the markup tag around f. -/
theorem Printer.with_markup_scoped (p : Printer) (mk : Rcl.Markup)
    (f : Printer → Printer × PrintResult)
    (h : ∀ q : Printer, Printer.scoped_eq q (f q).1) :
    Printer.scoped_eq p (p.with_markup mk f).1 := by
  unfold Printer.with_markup
  simp only
  have h2 := h { p with
    out := p.out ++ p.markup_mode.get_switch p.markup (some mk), markup := some mk }
  exact ⟨h2.1, h2.2.1, rfl, h2.2.2.2⟩

mutual

theorem Doc.print_to_scoped : ∀ (d : Doc) (p : Printer) (m : Mode),
    Printer.scoped_eq p (d.print_to p m).1
  | Doc.Str c w, p, _ => p.push_str_scoped c w
  | Doc.Strng c w, p, _ => p.push_str_scoped c w
  | Doc.WhenTall c w, p, m => by
      cases m
      · exact Printer.scoped_eq_refl p
      · exact p.push_str_scoped c w
  | Doc.Sep, p, m => by
      cases m
      · exact p.push_char_scoped ' '
      · exact p.newline_scoped
  | Doc.SoftBreak, p, m => by
      cases m
      · exact Printer.scoped_eq_refl p
      · exact p.newline_scoped
  | Doc.HardBreak, p, m => by
      cases m
      · exact Printer.scoped_eq_refl p
      · exact p.newline_scoped
  | Doc.RawBreak, p, m => by
      cases m
      · exact Printer.scoped_eq_refl p
      · exact p.raw_newline_scoped
  | Doc.Concat children, p, m => Doc.print_concat_scoped children p m PrintResult.Fits
  | Doc.Group inner, p, m => by
      by_cases h : inner.is_forced_tall = true
      · rw [Doc.print_group_forced inner p m h]
        exact Doc.print_to_scoped inner p m
      · rw [Bool.not_eq_true] at h
        cases m
        · rw [Doc.print_group_wide inner p h]
          exact Doc.print_to_scoped inner p Mode.Wide
        · rw [Doc.print_group_tall inner p h]
          have hsc : Printer.scoped_eq p
              (p.try_ (fun q => inner.print_to q Mode.Wide)).1 :=
            Printer.scoped_eq_trans (Doc.print_to_scoped inner p Mode.Wide)
              (p.try_scoped (fun q => inner.print_to q Mode.Wide))
          cases h2 : (p.try_ (fun q => inner.print_to q Mode.Wide)).2
          · simp only [h2]
            exact hsc
          · simp only [h2]
            exact Printer.scoped_eq_trans hsc
              (Doc.print_to_scoped inner _ Mode.Tall)
  | Doc.Indent inner, p, m => by
      cases m
      · exact Doc.print_to_scoped inner p Mode.Wide
      · rw [Doc.print_indent_tall]
        exact p.indented_scoped _ (Doc.print_to_scoped inner _ Mode.Tall)
  | Doc.FlushIndent inner, p, m => by
      cases m
      · exact Doc.print_to_scoped inner p Mode.Wide
      · rw [Doc.print_flush_tall]
        simp only
        split
        · exact Printer.scoped_eq_trans p.flush_newline_scoped
            ((p.flush_newline).1.indented_scoped _
              (Doc.print_to_scoped inner _ Mode.Tall))
        · exact Printer.scoped_eq_trans p.flush_newline_scoped
            (Doc.print_to_scoped inner (p.flush_newline).1 Mode.Tall)
  | Doc.Markup mk inner, p, mo => by
      rw [Doc.print_markup]
      exact p.with_markup_scoped mk _ (fun q => Doc.print_to_scoped inner q mo)

theorem Doc.print_concat_scoped : ∀ (ds : List Doc) (p : Printer) (m : Mode)
    (r : PrintResult), Printer.scoped_eq p (Doc.print_concat ds p m r).1
  | [], p, _, _ => Printer.scoped_eq_refl p
  | d :: ds, p, m, r => by
      rw [Doc.print_concat_cons]
      exact Printer.scoped_eq_trans (Doc.print_to_scoped d p m)
        (Doc.print_concat_scoped ds (d.print_to p m).1 m ((d.print_to p m).2.max r))

end

end Rcl

/-! ## Wide mode only appends to the buffer

In wide mode the renderer never emits a newline, so it only ever appends
characters to the output buffer.  Together with the scoped preservation this
makes the rollback of a speculative wide attempt exact. -/

namespace Rcl

theorem Printer.write_indent_extends (p : Printer) :
    ∃ t, p.write_indent.out = p.out ++ t := by
  unfold Printer.write_indent
  split
  · exact ⟨List.replicate p.indent ' ', rfl⟩
  · exact ⟨[], by simp⟩

theorem Printer.push_str_extends (p : Printer) (v : List Char) (w : Nat) :
    ∃ t, (p.push_str v w).1.out = p.out ++ t := by
  obtain ⟨t, ht⟩ := p.write_indent_extends
  exact ⟨t ++ v, by simp [Printer.push_str, ht]⟩

theorem Printer.push_char_extends (p : Printer) (ch : Char) :
    ∃ t, (p.push_char ch).1.out = p.out ++ t := by
  obtain ⟨t, ht⟩ := p.write_indent_extends
  exact ⟨t ++ [ch], by simp [Printer.push_char, ht]⟩

mutual

theorem Doc.print_wide_extends : ∀ (d : Doc) (p : Printer),
    ∃ t, (d.print_to p Mode.Wide).1.out = p.out ++ t
  | Doc.Str c w, p => p.push_str_extends c w
  | Doc.Strng c w, p => p.push_str_extends c w
  | Doc.WhenTall c w, p => ⟨[], by simp [Doc.print_when_tall_wide]⟩
  | Doc.Sep, p => p.push_char_extends ' '
  | Doc.SoftBreak, p => ⟨[], by simp [Doc.print_soft_wide]⟩
  | Doc.HardBreak, p => ⟨[], by simp [Doc.print_hard_wide]⟩
  | Doc.RawBreak, p => ⟨[], by simp [Doc.print_raw_wide]⟩
  | Doc.Concat children, p => Doc.print_concat_wide_extends children p PrintResult.Fits
  | Doc.Group inner, p => by
      by_cases h : inner.is_forced_tall = true
      · rw [Doc.print_group_forced inner p Mode.Wide h]
        exact Doc.print_wide_extends inner p
      · rw [Bool.not_eq_true] at h
        rw [Doc.print_group_wide inner p h]
        exact Doc.print_wide_extends inner p
  | Doc.Indent inner, p => Doc.print_wide_extends inner p
  | Doc.FlushIndent inner, p => Doc.print_wide_extends inner p
  | Doc.Markup mk inner, p => by
      rw [Doc.print_markup]
      unfold Printer.with_markup
      simp only
      obtain ⟨t, ht⟩ := Doc.print_wide_extends inner
        { p with
            out := p.out ++ p.markup_mode.get_switch p.markup (some mk)
            markup := some mk }
      refine ⟨p.markup_mode.get_switch p.markup (some mk) ++ t ++
        p.markup_mode.get_switch (some mk) p.markup, ?_⟩
      rw [ht]
      simp

theorem Doc.print_concat_wide_extends : ∀ (ds : List Doc) (p : Printer)
    (r : PrintResult), ∃ t, (Doc.print_concat ds p Mode.Wide r).1.out = p.out ++ t
  | [], p, _ => ⟨[], by simp [Doc.print_concat_nil]⟩
  | d :: ds, p, r => by
      rw [Doc.print_concat_cons]
      obtain ⟨t1, h1⟩ := Doc.print_wide_extends d p
      obtain ⟨t2, h2⟩ := Doc.print_concat_wide_extends ds (d.print_to p Mode.Wide).1
        ((d.print_to p Mode.Wide).2.max r)
      exact ⟨t1 ++ t2, by rw [h2, h1]; simp⟩

end

/-- try_ always returns the result that f produced. -/
theorem Printer.try_snd (p : Printer) (f : Printer → Printer × PrintResult) :
    (p.try_ f).2 = (f p).2 := by
  simp only [Printer.try_]
  split <;> rfl

/-- When the speculative wide attempt of a group overflows, the rollback in
try_ restores the printer exactly to its pre-attempt state. -/
theorem Printer.try_wide_rollback (inner : Doc) (p : Printer)
    (h : (inner.print_to p Mode.Wide).2 = PrintResult.Overflow) :
    (p.try_ (fun q => inner.print_to q Mode.Wide)).1 = p := by
  have hsc := Doc.print_to_scoped inner p Mode.Wide
  obtain ⟨t, ht⟩ := Doc.print_wide_extends inner p
  simp only [Printer.try_, h]
  simp only [PrintResult.is_overflow, if_true]
  ext1
  · simp [ht]
  · exact hsc.2.1
  · rfl
  · exact hsc.1
  · rfl
  · exact hsc.2.2.1
  · exact hsc.2.2.2

end Rcl

namespace Rcl

/-- When f fits, try_ commits: it returns exactly what f produced. -/
theorem Printer.try_commit (p : Printer) (f : Printer → Printer × PrintResult)
    (h : (f p).2 = PrintResult.Fits) : p.try_ f = f p := by
  simp only [Printer.try_, h, PrintResult.is_overflow]
  simp

/-- C1: a Group whose inner document is not forced tall, evaluated by
print_to in Tall mode, first attempts the inner document in Wide mode under
the speculative rollback mechanism.  If that attempt returns Fits, its
output is kept and the Group returns Fits.  If it returns Overflow, the
speculative output is discarded (the printer is restored exactly to its
state before the attempt) and the inner document is rendered once more in
Tall mode, whose output and result are final, even if that tall pass itself
overflows the width target. -/
theorem C1_group_speculative_wide (inner : Doc) (p : Printer)
    (h : inner.is_forced_tall = false) :
    ((inner.print_to p Mode.Wide).2 = PrintResult.Fits →
      (Doc.Group inner).print_to p Mode.Tall =
        ((inner.print_to p Mode.Wide).1, PrintResult.Fits)) ∧
    ((inner.print_to p Mode.Wide).2 = PrintResult.Overflow →
      (Doc.Group inner).print_to p Mode.Tall = inner.print_to p Mode.Tall) := by
  rw [Doc.print_group_tall inner p h]
  constructor
  · intro hf
    rw [Printer.try_commit p _ hf]
    simp only [hf]
  · intro ho
    have h2 : (p.try_ (fun q => inner.print_to q Mode.Wide)).2 = PrintResult.Overflow :=
      (p.try_snd (fun q => inner.print_to q Mode.Wide)).trans ho
    simp only [h2]
    rw [Printer.try_wide_rollback inner p ho]

/-- Witness for C1 at a concrete input. -/
theorem C1_group_speculative_wide_witness :
    (Doc.Str "hi".toList 2).is_forced_tall = false ∧
    ((((Doc.Str "hi".toList 2).print_to (Printer.new ⟨80, MarkupMode.None⟩) Mode.Wide).2 =
        PrintResult.Fits →
      (Doc.Group (Doc.Str "hi".toList 2)).print_to (Printer.new ⟨80, MarkupMode.None⟩)
          Mode.Tall =
        (((Doc.Str "hi".toList 2).print_to (Printer.new ⟨80, MarkupMode.None⟩) Mode.Wide).1,
          PrintResult.Fits)) ∧
     (((Doc.Str "hi".toList 2).print_to (Printer.new ⟨80, MarkupMode.None⟩) Mode.Wide).2 =
        PrintResult.Overflow →
      (Doc.Group (Doc.Str "hi".toList 2)).print_to (Printer.new ⟨80, MarkupMode.None⟩)
          Mode.Tall =
        (Doc.Str "hi".toList 2).print_to (Printer.new ⟨80, MarkupMode.None⟩) Mode.Tall)) :=
  ⟨by decide,
    C1_group_speculative_wide (Doc.Str "hi".toList 2) (Printer.new ⟨80, MarkupMode.None⟩)
      (by decide)⟩

end Rcl

/-! ## The empty document and the trailing newline -/

namespace Rcl

/-- C9: rendering the empty document with println returns the empty output
for every configuration: nothing is written, and the final flush_newline is
a no-op because the pending indent flag of the fresh printer is still set. -/
theorem C9_println_empty (config : Config) : Doc.empty.println config = [] := rfl

/-- A printer is line clean when, whenever the pending indent flag is set,
its buffer is empty or ends in a newline.  This is the invariant behind the
trailing newline guarantee of println. -/
def Printer.line_clean (p : Printer) : Prop :=
  p.needs_indent = true → p.out = [] ∨ p.out.getLast? = some '\n'

theorem Printer.push_str_needs_indent (p : Printer) (v : List Char) (w : Nat) :
    (p.push_str v w).1.needs_indent = false := by
  simp only [Printer.push_str, Printer.write_indent]
  split
  · rfl
  · rename_i hn
    simpa using hn

theorem Printer.push_char_needs_indent (p : Printer) (ch : Char) :
    (p.push_char ch).1.needs_indent = false := by
  simp only [Printer.push_char, Printer.write_indent]
  split
  · rfl
  · rename_i hn
    simpa using hn

theorem Printer.newline_line_clean (p : Printer) :
    Printer.line_clean (p.newline).1 := by
  intro _
  right
  simp [Printer.newline]

theorem Printer.push_str_line_clean (p : Printer) (v : List Char) (w : Nat) :
    Printer.line_clean (p.push_str v w).1 := by
  intro hn
  rw [p.push_str_needs_indent v w] at hn
  cases hn

theorem Printer.push_char_line_clean (p : Printer) (ch : Char) :
    Printer.line_clean (p.push_char ch).1 := by
  intro hn
  rw [p.push_char_needs_indent ch] at hn
  cases hn

theorem Printer.raw_newline_line_clean (p : Printer) :
    Printer.line_clean (p.raw_newline).1 := by
  intro hn
  cases hn

theorem Printer.flush_newline_line_clean (p : Printer) (h : Printer.line_clean p) :
    Printer.line_clean (p.flush_newline).1 := by
  unfold Printer.flush_newline
  split
  · exact h
  · exact p.newline_line_clean

mutual

theorem Doc.print_line_clean : ∀ (d : Doc) (p : Printer) (m : Mode),
    p.markup_mode = MarkupMode.None → Printer.line_clean p →
    Printer.line_clean (d.print_to p m).1
  | Doc.Str c w, p, _, _, _ => p.push_str_line_clean c w
  | Doc.Strng c w, p, _, _, _ => p.push_str_line_clean c w
  | Doc.WhenTall c w, p, m, _, hc => by
      cases m
      · exact hc
      · exact p.push_str_line_clean c w
  | Doc.Sep, p, m, _, hc => by
      cases m
      · exact p.push_char_line_clean ' '
      · exact p.newline_line_clean
  | Doc.SoftBreak, p, m, _, hc => by
      cases m
      · exact hc
      · exact p.newline_line_clean
  | Doc.HardBreak, p, m, _, hc => by
      cases m
      · exact hc
      · exact p.newline_line_clean
  | Doc.RawBreak, p, m, _, hc => by
      cases m
      · exact hc
      · exact p.raw_newline_line_clean
  | Doc.Concat children, p, m, hm, hc =>
      Doc.print_concat_line_clean children p m PrintResult.Fits hm hc
  | Doc.Group inner, p, m, hm, hc => by
      by_cases h : inner.is_forced_tall = true
      · rw [Doc.print_group_forced inner p m h]
        exact Doc.print_line_clean inner p m hm hc
      · rw [Bool.not_eq_true] at h
        cases m
        · rw [Doc.print_group_wide inner p h]
          exact Doc.print_line_clean inner p Mode.Wide hm hc
        · rw [Doc.print_group_tall inner p h]
          cases hw : (inner.print_to p Mode.Wide).2
          · have hcommit := Printer.try_commit p (fun q => inner.print_to q Mode.Wide) hw
            simp only [hcommit, hw]
            exact Doc.print_line_clean inner p Mode.Wide hm hc
          · have h2 : (p.try_ (fun q => inner.print_to q Mode.Wide)).2 =
                PrintResult.Overflow :=
              (p.try_snd (fun q => inner.print_to q Mode.Wide)).trans hw
            simp only [h2]
            rw [Printer.try_wide_rollback inner p hw]
            exact Doc.print_line_clean inner p Mode.Tall hm hc
  | Doc.Indent inner, p, m, hm, hc => by
      cases m
      · exact Doc.print_line_clean inner p Mode.Wide hm hc
      · rw [Doc.print_indent_tall]
        unfold Printer.indented
        intro hn
        have := Doc.print_line_clean inner { p with indent := p.indent + 2 }
          Mode.Tall hm hc
        exact this hn
  | Doc.FlushIndent inner, p, m, hm, hc => by
      cases m
      · exact Doc.print_line_clean inner p Mode.Wide hm hc
      · rw [Doc.print_flush_tall]
        simp only
        have hf : Printer.line_clean (p.flush_newline).1 :=
          p.flush_newline_line_clean hc
        have hfm : (p.flush_newline).1.markup_mode = MarkupMode.None :=
          (p.flush_newline_scoped).2.2.2.trans hm
        split
        · unfold Printer.indented
          intro hn
          have := Doc.print_line_clean inner
            { (p.flush_newline).1 with indent := (p.flush_newline).1.indent + 2 }
            Mode.Tall hfm hf
          exact this hn
        · exact Doc.print_line_clean inner (p.flush_newline).1 Mode.Tall hfm hf
  | Doc.Markup mk inner, p, mo, hm, hc => by
      rw [Doc.print_markup]
      unfold Printer.with_markup
      have hsw : ∀ a b : Option Rcl.Markup, p.markup_mode.get_switch a b = [] := by
        rw [hm]
        intro a b
        rfl
      simp only [hsw, List.append_nil]
      intro hn
      have := Doc.print_line_clean inner { p with markup := some mk } mo hm hc
      exact this hn

theorem Doc.print_concat_line_clean : ∀ (ds : List Doc) (p : Printer) (m : Mode)
    (r : PrintResult), p.markup_mode = MarkupMode.None → Printer.line_clean p →
    Printer.line_clean (Doc.print_concat ds p m r).1
  | [], p, _, _, _, hc => hc
  | d :: ds, p, m, r, hm, hc => by
      rw [Doc.print_concat_cons]
      exact Doc.print_concat_line_clean ds (d.print_to p m).1 m
        ((d.print_to p m).2.max r)
        ((Doc.print_to_scoped d p m).2.2.2.trans hm)
        (Doc.print_line_clean d p m hm hc)

end

/-- C2 counterexample: the empty document renders to the empty output, which
does not end in a line break, so the output of println does not always end
with exactly one trailing line break. -/
theorem C2_counterexample :
    Doc.empty.println ⟨80, MarkupMode.None⟩ = [] ∧
    (Doc.empty.println ⟨80, MarkupMode.None⟩).getLast? ≠ some '\n' := by
  decide

/-- C2 (amended): with markup mode None, the output of println is either
empty (when nothing at all was rendered) or ends with a line break; the
final flush_newline appends at most the one terminating break. -/
theorem C2_trailing_newline (d : Doc) (w : Nat) :
    d.println ⟨w, MarkupMode.None⟩ = [] ∨
    (d.println ⟨w, MarkupMode.None⟩).getLast? = some '\n' := by
  unfold Doc.println
  simp only
  set p0 := Printer.new ⟨w, MarkupMode.None⟩ with hp0
  have hclean0 : Printer.line_clean p0 := by
    intro _
    left
    rfl
  have hclean : Printer.line_clean (d.print_to p0 Mode.Tall).1 :=
    Doc.print_line_clean d p0 Mode.Tall rfl hclean0
  unfold Printer.flush_newline
  split
  · rename_i hn
    unfold Printer.into_inner
    exact hclean hn
  · right
    simp [Printer.into_inner, Printer.newline]

end Rcl

/-! ## Speculative rollback: what try_ does and does not restore -/

namespace Rcl

/-- C5 counterexample: a callback that emits a newline can shrink the buffer
below the snapshot, because newline trims trailing spaces; the truncation in
try_ then cannot restore the original buffer.  Here the buffer holds a
letter and a trailing space, the callback emits a newline (which trims the
space) and reports Overflow, and after the rollback the buffer differs from
the original even though try_ returned Overflow. -/
theorem C5_counterexample :
    (((⟨"x ".toList, 80, 2, 0, false, none, MarkupMode.None⟩ : Printer).try_
        (fun q => ((q.newline).1, PrintResult.Overflow))).2 = PrintResult.Overflow) ∧
    ((⟨"x ".toList, 80, 2, 0, false, none, MarkupMode.None⟩ : Printer).try_
        (fun q => ((q.newline).1, PrintResult.Overflow))).1.out ≠
      ("x ".toList : List Char) := by
  decide

/-- C5 (amended): for a callback that only appends to the buffer, as every
wide mode rendering callback does, an Overflow outcome makes try_ restore
the buffer, the line width and the pending indent flag exactly; and for a
callback that leaves the indentation depth and the markup tag unchanged,
try_ leaves both unchanged in either outcome. -/
theorem C5_try_rollback (p : Printer) (f : Printer → Printer × PrintResult)
    (happ : ∃ t, (f p).1.out = p.out ++ t)
    (hind : (f p).1.indent = p.indent)
    (hmk : (f p).1.markup = p.markup) :
    ((f p).2 = PrintResult.Overflow →
      (p.try_ f).1.out = p.out ∧ (p.try_ f).1.line_width = p.line_width ∧
        (p.try_ f).1.needs_indent = p.needs_indent) ∧
    (p.try_ f).1.indent = p.indent ∧ (p.try_ f).1.markup = p.markup := by
  obtain ⟨t, ht⟩ := happ
  cases hr : (f p).2
  · have hcommit := Printer.try_commit p f hr
    refine ⟨fun hco => ?_, ?_, ?_⟩
    · exact PrintResult.noConfusion hco
    · rw [hcommit]
      exact hind
    · rw [hcommit]
      exact hmk
  · have hro : (p.try_ f).1 = { (f p).1 with
        out := (f p).1.out.take p.out.length
        line_width := p.line_width
        needs_indent := p.needs_indent } := by
      simp only [Printer.try_, hr, PrintResult.is_overflow, if_true]
    refine ⟨fun _ => ⟨?_, ?_, ?_⟩, ?_, ?_⟩
    · rw [hro]
      simp [ht]
    · rw [hro]
    · rw [hro]
    · rw [hro]
      exact hind
    · rw [hro]
      exact hmk

/-- Witness for C5 at a concrete input: pushing five characters against a
width budget of one overflows, and the rollback restores the fresh printer. -/
theorem C5_try_rollback_witness :
    (∃ t, ((Printer.new ⟨1, MarkupMode.None⟩).push_str "hello".toList 5).1.out =
      (Printer.new ⟨1, MarkupMode.None⟩).out ++ t) ∧
    (((Printer.new ⟨1, MarkupMode.None⟩).push_str "hello".toList 5).1.indent =
      (Printer.new ⟨1, MarkupMode.None⟩).indent) ∧
    ((((Printer.new ⟨1, MarkupMode.None⟩).push_str "hello".toList 5).2 =
        PrintResult.Overflow →
      ((Printer.new ⟨1, MarkupMode.None⟩).try_
          (fun q => q.push_str "hello".toList 5)).1.out =
        (Printer.new ⟨1, MarkupMode.None⟩).out ∧
      ((Printer.new ⟨1, MarkupMode.None⟩).try_
          (fun q => q.push_str "hello".toList 5)).1.line_width =
        (Printer.new ⟨1, MarkupMode.None⟩).line_width ∧
      ((Printer.new ⟨1, MarkupMode.None⟩).try_
          (fun q => q.push_str "hello".toList 5)).1.needs_indent =
        (Printer.new ⟨1, MarkupMode.None⟩).needs_indent) ∧
    ((Printer.new ⟨1, MarkupMode.None⟩).try_
        (fun q => q.push_str "hello".toList 5)).1.indent =
      (Printer.new ⟨1, MarkupMode.None⟩).indent ∧
    ((Printer.new ⟨1, MarkupMode.None⟩).try_
        (fun q => q.push_str "hello".toList 5)).1.markup =
      (Printer.new ⟨1, MarkupMode.None⟩).markup) :=
  ⟨⟨"hello".toList, by decide⟩, by decide,
    C5_try_rollback (Printer.new ⟨1, MarkupMode.None⟩)
      (fun q => q.push_str "hello".toList 5)
      ⟨"hello".toList, by decide⟩ (by decide) (by decide)⟩

end Rcl

/-! ## Forced tall status -/

namespace Rcl

/-- A document transitively contains an unconditional line break.  This is
the specification side notion for C4: the tree contains a HardBreak or a
RawBreak somewhere, looking through Concat, Group, Indent, FlushIndent and
Markup nodes alike. -/
inductive Doc.contains_break : Doc → Prop where
  | hard : Doc.contains_break Doc.HardBreak
  | raw : Doc.contains_break Doc.RawBreak
  | concat {d : Doc} {ds : List Doc} :
      d ∈ ds → Doc.contains_break d → Doc.contains_break (Doc.Concat ds)
  | group {d : Doc} : Doc.contains_break d → Doc.contains_break (Doc.Group d)
  | indent {d : Doc} : Doc.contains_break d → Doc.contains_break (Doc.Indent d)
  | flush_indent {d : Doc} :
      Doc.contains_break d → Doc.contains_break (Doc.FlushIndent d)
  | markup {mk : Rcl.Markup} {d : Doc} :
      Doc.contains_break d → Doc.contains_break (Doc.Markup mk d)

theorem Doc.contains_break_concat_inv {ds : List Doc}
    (h : (Doc.Concat ds).contains_break) : ∃ d ∈ ds, d.contains_break := by
  cases h with
  | concat hmem hd => exact ⟨_, hmem, hd⟩

theorem Doc.contains_break_group_inv {d : Doc}
    (h : (Doc.Group d).contains_break) : d.contains_break := by
  cases h with
  | group hd => exact hd

theorem Doc.contains_break_indent_inv {d : Doc}
    (h : (Doc.Indent d).contains_break) : d.contains_break := by
  cases h with
  | indent hd => exact hd

theorem Doc.contains_break_flush_inv {d : Doc}
    (h : (Doc.FlushIndent d).contains_break) : d.contains_break := by
  cases h with
  | flush_indent hd => exact hd

theorem Doc.contains_break_markup_inv {mk : Rcl.Markup} {d : Doc}
    (h : (Doc.Markup mk d).contains_break) : d.contains_break := by
  cases h with
  | markup hd => exact hd

mutual

theorem Doc.forced_iff_contains : ∀ d : Doc,
    d.is_forced_tall = true ↔ d.contains_break
  | Doc.Str c w => ⟨fun h => (nomatch h), fun h => (nomatch h)⟩
  | Doc.Strng c w => ⟨fun h => (nomatch h), fun h => (nomatch h)⟩
  | Doc.WhenTall c w => ⟨fun h => (nomatch h), fun h => (nomatch h)⟩
  | Doc.Sep => ⟨fun h => (nomatch h), fun h => (nomatch h)⟩
  | Doc.SoftBreak => ⟨fun h => (nomatch h), fun h => (nomatch h)⟩
  | Doc.HardBreak => ⟨fun _ => Doc.contains_break.hard, fun _ => rfl⟩
  | Doc.RawBreak => ⟨fun _ => Doc.contains_break.raw, fun _ => rfl⟩
  | Doc.Concat children =>
      ⟨fun h => by
        obtain ⟨d, hmem, hd⟩ := (Doc.any_forced_iff children).1 h
        exact Doc.contains_break.concat hmem hd,
       fun h => by
        obtain ⟨d, hmem, hd⟩ := Doc.contains_break_concat_inv h
        exact (Doc.any_forced_iff children).2 ⟨d, hmem, hd⟩⟩
  | Doc.Group inner =>
      ⟨fun h => Doc.contains_break.group ((Doc.forced_iff_contains inner).1 h),
       fun h => (Doc.forced_iff_contains inner).2 (Doc.contains_break_group_inv h)⟩
  | Doc.Indent inner =>
      ⟨fun h => Doc.contains_break.indent ((Doc.forced_iff_contains inner).1 h),
       fun h => (Doc.forced_iff_contains inner).2 (Doc.contains_break_indent_inv h)⟩
  | Doc.FlushIndent inner =>
      ⟨fun h => Doc.contains_break.flush_indent ((Doc.forced_iff_contains inner).1 h),
       fun h => (Doc.forced_iff_contains inner).2 (Doc.contains_break_flush_inv h)⟩
  | Doc.Markup mk inner =>
      ⟨fun h => Doc.contains_break.markup ((Doc.forced_iff_contains inner).1 h),
       fun h => (Doc.forced_iff_contains inner).2 (Doc.contains_break_markup_inv h)⟩

theorem Doc.any_forced_iff : ∀ ds : List Doc,
    Doc.any_forced ds = true ↔ ∃ d ∈ ds, d.contains_break
  | [] =>
      ⟨fun h => (nomatch h), fun h => (nomatch h)⟩
  | d :: ds => by
      simp only [Doc.any_forced, Bool.or_eq_true]
      constructor
      · intro h
        cases h with
        | inl h =>
            exact ⟨d, List.mem_cons_self d ds, (Doc.forced_iff_contains d).1 h⟩
        | inr h =>
            obtain ⟨e, hmem, he⟩ := (Doc.any_forced_iff ds).1 h
            exact ⟨e, List.mem_cons_of_mem d hmem, he⟩
      · rintro ⟨e, hmem, he⟩
        cases List.mem_cons.1 hmem with
        | inl heq =>
            exact Or.inl ((Doc.forced_iff_contains d).2 (heq ▸ he))
        | inr hmem2 => exact Or.inr ((Doc.any_forced_iff ds).2 ⟨e, hmem2, he⟩)

end

/-- C4: is_forced_tall returns true exactly when the tree transitively
contains a HardBreak or RawBreak, and the status propagates upward through
Group boundaries unchanged: a Group is forced tall exactly when its inner
document is, so a forced tall nested Group still forces its ancestor Groups
tall, and nothing resets the status below a break. -/
theorem C4_forced_tall_characterisation (d : Doc) :
    (d.is_forced_tall = true ↔ d.contains_break) ∧
    (Doc.Group d).is_forced_tall = d.is_forced_tall :=
  ⟨Doc.forced_iff_contains d, rfl⟩

end Rcl

/-! ## Concatenation: the Add instance is a pure construction optimisation -/

namespace Rcl

theorem PrintResult.max_fits_right (r : PrintResult) :
    r.max PrintResult.Fits = r := by
  cases r <;> rfl

theorem PrintResult.fits_max (r : PrintResult) :
    PrintResult.Fits.max r = r := by
  cases r <;> rfl

theorem PrintResult.max_assoc (a b c : PrintResult) :
    (a.max b).max c = a.max (b.max c) := by
  cases a <;> cases b <;> cases c <;> rfl

/-- The fold of print_concat with an arbitrary accumulator equals the fold
with the Fits accumulator, with the accumulator merged at the end. -/
theorem Doc.print_concat_acc : ∀ (ds : List Doc) (p : Printer) (m : Mode)
    (r : PrintResult),
    Doc.print_concat ds p m r =
      ((Doc.print_concat ds p m PrintResult.Fits).1,
       (Doc.print_concat ds p m PrintResult.Fits).2.max r)
  | [], p, m, r => by
      rw [Doc.print_concat_nil, Doc.print_concat_nil, PrintResult.fits_max]
  | d :: ds, p, m, r => by
      rw [Doc.print_concat_cons, Doc.print_concat_cons,
        Doc.print_concat_acc ds (d.print_to p m).1 m ((d.print_to p m).2.max r),
        Doc.print_concat_acc ds (d.print_to p m).1 m
          ((d.print_to p m).2.max PrintResult.Fits),
        PrintResult.max_fits_right, PrintResult.max_assoc]

theorem Doc.print_concat_append : ∀ (xs ys : List Doc) (p : Printer) (m : Mode)
    (r : PrintResult),
    Doc.print_concat (xs ++ ys) p m r =
      Doc.print_concat ys (Doc.print_concat xs p m r).1 m
        (Doc.print_concat xs p m r).2
  | [], ys, p, m, r => by
      rw [List.nil_append, Doc.print_concat_nil]
  | x :: xs, ys, p, m, r => by
      rw [List.cons_append, Doc.print_concat_cons, Doc.print_concat_cons,
        Doc.print_concat_append xs ys]

/-- Printing a two element Concat: thread the printer through both children
and combine the results with max. -/
theorem Doc.print_pair (x y : Doc) (p : Printer) (m : Mode) :
    (Doc.Concat [x, y]).print_to p m =
      ((y.print_to (x.print_to p m).1 m).1,
       (y.print_to (x.print_to p m).1 m).2.max (x.print_to p m).2) := by
  rw [Doc.print_concat_eq, Doc.print_concat_cons, Doc.print_concat_cons,
    Doc.print_concat_nil, PrintResult.max_fits_right]

theorem Doc.print_pair_empty_left (y : Doc) (p : Printer) (m : Mode) :
    (Doc.Concat [Doc.Concat [], y]).print_to p m = y.print_to p m := by
  rw [Doc.print_pair]
  show ((y.print_to p m).1, (y.print_to p m).2.max PrintResult.Fits) = _
  rw [PrintResult.max_fits_right]

theorem Doc.print_pair_empty_right (x : Doc) (p : Printer) (m : Mode) :
    (Doc.Concat [x, Doc.Concat []]).print_to p m = x.print_to p m := by
  rw [Doc.print_pair]
  show ((x.print_to p m).1, PrintResult.Fits.max (x.print_to p m).2) = _
  rw [PrintResult.fits_max]

theorem Doc.print_pair_cons (a : Doc) (ys : List Doc) (p : Printer) (m : Mode) :
    (Doc.Concat (a :: ys)).print_to p m =
      (Doc.Concat [a, Doc.Concat ys]).print_to p m := by
  rw [Doc.print_pair, Doc.print_concat_eq, Doc.print_concat_cons,
    PrintResult.max_fits_right,
    Doc.print_concat_acc ys (a.print_to p m).1 m (a.print_to p m).2]
  rfl

theorem Doc.print_pair_snoc (xs : List Doc) (b : Doc) (p : Printer) (m : Mode) :
    (Doc.Concat (xs ++ [b])).print_to p m =
      (Doc.Concat [Doc.Concat xs, b]).print_to p m := by
  rw [Doc.print_pair, Doc.print_concat_eq, Doc.print_concat_append xs [b],
    Doc.print_concat_cons, Doc.print_concat_nil]
  rfl

theorem Doc.print_pair_concat (xs ys : List Doc) (p : Printer) (m : Mode) :
    (Doc.Concat (xs ++ ys)).print_to p m =
      (Doc.Concat [Doc.Concat xs, Doc.Concat ys]).print_to p m := by
  rw [Doc.print_pair, Doc.print_concat_eq, Doc.print_concat_append xs ys,
    Doc.print_concat_acc ys (Doc.print_concat xs p m PrintResult.Fits).1 m
      (Doc.print_concat xs p m PrintResult.Fits).2]
  rfl

/-- Merging two Indent nodes is sound, assuming the merge of their children
already is: the indentation scope closes and reopens at the same depth. -/
theorem Doc.print_pair_indent (x y : Doc) (p : Printer) (m : Mode)
    (h : ∀ (q : Printer) (mo : Mode),
      (x.add y).print_to q mo = (Doc.Concat [x, y]).print_to q mo) :
    (Doc.Indent (x.add y)).print_to p m =
      (Doc.Concat [Doc.Indent x, Doc.Indent y]).print_to p m := by
  cases m
  · rw [Doc.print_indent_wide, h, Doc.print_pair, Doc.print_pair,
      Doc.print_indent_wide, Doc.print_indent_wide]
  · rw [Doc.print_indent_tall]
    have hfun : (fun q => (x.add y).print_to q Mode.Tall) =
        (fun q => (Doc.Concat [x, y]).print_to q Mode.Tall) :=
      funext fun q => h q Mode.Tall
    rw [hfun]
    unfold Printer.indented
    simp only
    rw [Doc.print_pair, Doc.print_pair, Doc.print_indent_tall,
      Doc.print_indent_tall]
    unfold Printer.indented
    simp only
    have hA : (x.print_to { p with indent := p.indent + 2 } Mode.Tall).1.indent =
        p.indent + 2 :=
      (Doc.print_to_scoped x { p with indent := p.indent + 2 } Mode.Tall).1
    have h22 : p.indent + 2 - 2 + 2 = p.indent + 2 := by omega
    have hkey : ∀ X : Printer, X.indent = p.indent + 2 →
        ({ X with indent := X.indent - 2 + 2 } = X) := by
      intro X hX
      rw [hX, h22, ← hX]
    rw [hkey (x.print_to { p with indent := p.indent + 2 } Mode.Tall).1 hA]

/-- The Add implementation is semantics preserving: printing a.add b is the
same as printing the plain two element Concat of a and b, in every printer
state and mode. -/
theorem Doc.add_print : ∀ (a b : Doc) (p : Printer) (m : Mode),
    (a.add b).print_to p m = (Doc.Concat [a, b]).print_to p m
  | Doc.Str c w, b, p, m => by
      cases b <;> try rfl
      case Concat ys =>
        cases ys with
        | nil => exact (Doc.print_pair_empty_right _ p m).symm
        | cons y ys2 => exact Doc.print_pair_cons _ _ p m
  | Doc.Strng c w, b, p, m => by
      cases b <;> try rfl
      case Concat ys =>
        cases ys with
        | nil => exact (Doc.print_pair_empty_right _ p m).symm
        | cons y ys2 => exact Doc.print_pair_cons _ _ p m
  | Doc.WhenTall c w, b, p, m => by
      cases b <;> try rfl
      case Concat ys =>
        cases ys with
        | nil => exact (Doc.print_pair_empty_right _ p m).symm
        | cons y ys2 => exact Doc.print_pair_cons _ _ p m
  | Doc.Sep, b, p, m => by
      cases b <;> try rfl
      case Concat ys =>
        cases ys with
        | nil => exact (Doc.print_pair_empty_right _ p m).symm
        | cons y ys2 => exact Doc.print_pair_cons _ _ p m
  | Doc.SoftBreak, b, p, m => by
      cases b <;> try rfl
      case Concat ys =>
        cases ys with
        | nil => exact (Doc.print_pair_empty_right _ p m).symm
        | cons y ys2 => exact Doc.print_pair_cons _ _ p m
  | Doc.HardBreak, b, p, m => by
      cases b <;> try rfl
      case Concat ys =>
        cases ys with
        | nil => exact (Doc.print_pair_empty_right _ p m).symm
        | cons y ys2 => exact Doc.print_pair_cons _ _ p m
  | Doc.RawBreak, b, p, m => by
      cases b <;> try rfl
      case Concat ys =>
        cases ys with
        | nil => exact (Doc.print_pair_empty_right _ p m).symm
        | cons y ys2 => exact Doc.print_pair_cons _ _ p m
  | Doc.Group i, b, p, m => by
      cases b <;> try rfl
      case Concat ys =>
        cases ys with
        | nil => exact (Doc.print_pair_empty_right _ p m).symm
        | cons y ys2 => exact Doc.print_pair_cons _ _ p m
  | Doc.FlushIndent i, b, p, m => by
      cases b <;> try rfl
      case Concat ys =>
        cases ys with
        | nil => exact (Doc.print_pair_empty_right _ p m).symm
        | cons y ys2 => exact Doc.print_pair_cons _ _ p m
  | Doc.Markup mk i, b, p, m => by
      cases b <;> try rfl
      case Concat ys =>
        cases ys with
        | nil => exact (Doc.print_pair_empty_right _ p m).symm
        | cons y ys2 => exact Doc.print_pair_cons _ _ p m
  | Doc.Indent x, b, p, m => by
      cases b <;> try rfl
      case Concat ys =>
        cases ys with
        | nil => exact (Doc.print_pair_empty_right _ p m).symm
        | cons y ys2 => exact Doc.print_pair_cons _ _ p m
      case Indent y =>
        exact Doc.print_pair_indent x y p m (Doc.add_print x y)
  | Doc.Concat xs, b, p, m => by
      cases xs with
      | nil =>
        cases b <;> try exact (Doc.print_pair_empty_left _ p m).symm
        case Concat ys =>
          cases ys <;> exact (Doc.print_pair_empty_left _ p m).symm
      | cons x xs2 =>
        cases b <;> try exact Doc.print_pair_snoc (x :: xs2) _ p m
        case Concat ys =>
          cases ys with
          | nil => exact (Doc.print_pair_empty_right _ p m).symm
          | cons y ys2 => exact Doc.print_pair_concat (x :: xs2) (y :: ys2) p m

/-- The empty document is a left identity for the Add instance. -/
theorem Doc.empty_add (a : Doc) : Doc.empty.add a = a := by
  cases a <;> try rfl
  case Concat xs => cases xs <;> rfl

/-- The empty document is a right identity for the Add instance. -/
theorem Doc.add_empty (a : Doc) : a.add Doc.empty = a := by
  cases a <;> try rfl
  case Concat xs => cases xs <;> rfl

/-- C7: the concatenation operator is semantics preserving and has the empty
document as identity: rendering a.add b produces the same string as
rendering Concat of a and b, and adding the empty document on either side
renders identically to the document alone, for every configuration. -/
theorem C7_add_semantics (a b : Doc) (cfg : Config) :
    (a.add b).println cfg = (Doc.Concat [a, b]).println cfg ∧
    (Doc.empty.add a).println cfg = a.println cfg ∧
    (a.add Doc.empty).println cfg = a.println cfg := by
  refine ⟨?_, ?_, ?_⟩
  · show (((a.add b).print_to (Printer.new cfg) Mode.Tall).1.flush_newline).1.into_inner =
      (((Doc.Concat [a, b]).print_to (Printer.new cfg) Mode.Tall).1.flush_newline).1.into_inner
    rw [Doc.add_print a b]
  · rw [Doc.empty_add]
  · rw [Doc.add_empty]

end Rcl

/-! ## Ownership conversion preserves rendering -/

namespace Rcl

mutual

theorem Doc.into_owned_forced : ∀ d : Doc,
    d.into_owned.is_forced_tall = d.is_forced_tall
  | Doc.Str c w => rfl
  | Doc.Strng c w => rfl
  | Doc.WhenTall c w => rfl
  | Doc.Sep => rfl
  | Doc.SoftBreak => rfl
  | Doc.HardBreak => rfl
  | Doc.RawBreak => rfl
  | Doc.Concat children => Doc.into_owned_any_forced children
  | Doc.Group inner => Doc.into_owned_forced inner
  | Doc.Indent inner => Doc.into_owned_forced inner
  | Doc.FlushIndent inner => Doc.into_owned_forced inner
  | Doc.Markup mk inner => Doc.into_owned_forced inner

theorem Doc.into_owned_any_forced : ∀ ds : List Doc,
    Doc.any_forced (Doc.into_owned_list ds) = Doc.any_forced ds
  | [] => rfl
  | d :: ds => by
      show (d.into_owned.is_forced_tall || Doc.any_forced (Doc.into_owned_list ds)) =
        (d.is_forced_tall || Doc.any_forced ds)
      rw [Doc.into_owned_forced d, Doc.into_owned_any_forced ds]

end

mutual

theorem Doc.into_owned_print : ∀ (d : Doc) (p : Printer) (m : Mode),
    d.into_owned.print_to p m = d.print_to p m
  | Doc.Str c w, p, m => rfl
  | Doc.Strng c w, p, m => rfl
  | Doc.WhenTall c w, p, m => rfl
  | Doc.Sep, p, m => rfl
  | Doc.SoftBreak, p, m => rfl
  | Doc.HardBreak, p, m => rfl
  | Doc.RawBreak, p, m => rfl
  | Doc.Concat children, p, m =>
      Doc.into_owned_print_concat children p m PrintResult.Fits
  | Doc.Group inner, p, m => by
      show (Doc.Group inner.into_owned).print_to p m = (Doc.Group inner).print_to p m
      have hfun : (fun q => inner.into_owned.print_to q Mode.Wide) =
          (fun q => inner.print_to q Mode.Wide) :=
        funext fun q => Doc.into_owned_print inner q Mode.Wide
      by_cases h : inner.is_forced_tall = true
      · rw [Doc.print_group_forced inner.into_owned p m
            ((Doc.into_owned_forced inner).trans h),
          Doc.print_group_forced inner p m h]
        exact Doc.into_owned_print inner p m
      · rw [Bool.not_eq_true] at h
        have ho : inner.into_owned.is_forced_tall = false :=
          (Doc.into_owned_forced inner).trans h
        cases m
        · rw [Doc.print_group_wide inner.into_owned p ho,
            Doc.print_group_wide inner p h]
          exact Doc.into_owned_print inner p Mode.Wide
        · rw [Doc.print_group_tall inner.into_owned p ho,
            Doc.print_group_tall inner p h]
          simp only [hfun]
          cases hw : (p.try_ (fun q => inner.print_to q Mode.Wide)).2
          · rfl
          · exact Doc.into_owned_print inner _ Mode.Tall
  | Doc.Indent inner, p, m => by
      show (Doc.Indent inner.into_owned).print_to p m = (Doc.Indent inner).print_to p m
      cases m
      · exact Doc.into_owned_print inner p Mode.Wide
      · rw [Doc.print_indent_tall, Doc.print_indent_tall]
        have hfun : (fun q => inner.into_owned.print_to q Mode.Tall) =
            (fun q => inner.print_to q Mode.Tall) :=
          funext fun q => Doc.into_owned_print inner q Mode.Tall
        rw [hfun]
  | Doc.FlushIndent inner, p, m => by
      show (Doc.FlushIndent inner.into_owned).print_to p m =
        (Doc.FlushIndent inner).print_to p m
      cases m
      · exact Doc.into_owned_print inner p Mode.Wide
      · rw [Doc.print_flush_tall, Doc.print_flush_tall]
        have hfun : (fun q => inner.into_owned.print_to q Mode.Tall) =
            (fun q => inner.print_to q Mode.Tall) :=
          funext fun q => Doc.into_owned_print inner q Mode.Tall
        simp only [hfun, Doc.into_owned_print inner]
  | Doc.Markup mk inner, p, m => by
      show (Doc.Markup mk inner.into_owned).print_to p m =
        (Doc.Markup mk inner).print_to p m
      rw [Doc.print_markup, Doc.print_markup]
      have hfun : (fun q => inner.into_owned.print_to q m) =
          (fun q => inner.print_to q m) :=
        funext fun q => Doc.into_owned_print inner q m
      rw [hfun]

theorem Doc.into_owned_print_concat : ∀ (ds : List Doc) (p : Printer) (m : Mode)
    (r : PrintResult),
    Doc.print_concat (Doc.into_owned_list ds) p m r = Doc.print_concat ds p m r
  | [], p, m, r => rfl
  | d :: ds, p, m, r => by
      show Doc.print_concat (d.into_owned :: Doc.into_owned_list ds) p m r = _
      rw [Doc.print_concat_cons, Doc.print_concat_cons, Doc.into_owned_print d,
        Doc.into_owned_print_concat ds]

end

/-- C10: into_owned preserves rendering exactly: for every document and
every configuration, printing the owned copy with println yields the same
string as printing the original. -/
theorem C10_into_owned_println (d : Doc) (config : Config) :
    d.into_owned.println config = d.println config := by
  show ((d.into_owned.print_to (Printer.new config) Mode.Tall).1.flush_newline).1.into_inner =
    ((d.print_to (Printer.new config) Mode.Tall).1.flush_newline).1.into_inner
  rw [Doc.into_owned_print d]

end Rcl

/-! ## Wide rendering under an unbounded width budget -/

namespace Rcl

mutual

/-- The display width a document contributes when rendered in wide mode:
cached fragment widths, one column per Sep, nothing for tall-only content. -/
def Doc.wide_width : Doc → Nat
  | Doc.Str _ w => w
  | Doc.Strng _ w => w
  | Doc.WhenTall _ _ => 0
  | Doc.Sep => 1
  | Doc.SoftBreak => 0
  | Doc.HardBreak => 0
  | Doc.RawBreak => 0
  | Doc.Concat children => Doc.wide_width_list children
  | Doc.Group inner => inner.wide_width
  | Doc.Indent inner => inner.wide_width
  | Doc.FlushIndent inner => inner.wide_width
  | Doc.Markup _ inner => inner.wide_width

def Doc.wide_width_list : List Doc → Nat
  | [] => 0
  | d :: ds => d.wide_width + Doc.wide_width_list ds

end

mutual

/-- Well-formedness of text fragments: no Str, Strng or WhenTall content
contains a line break character (an invariant the source enforces with
debug assertions in the Doc constructors). -/
def Doc.nl_free : Doc → Bool
  | Doc.Str c _ => c.all (fun ch => ch != '\n')
  | Doc.Strng c _ => c.all (fun ch => ch != '\n')
  | Doc.WhenTall c _ => c.all (fun ch => ch != '\n')
  | Doc.Concat children => Doc.nl_free_list children
  | Doc.Group inner => inner.nl_free
  | Doc.Indent inner => inner.nl_free
  | Doc.FlushIndent inner => inner.nl_free
  | Doc.Markup _ inner => inner.nl_free
  | _ => true

def Doc.nl_free_list : List Doc → Bool
  | [] => true
  | d :: ds => d.nl_free && Doc.nl_free_list ds

end

theorem List.not_mem_of_all_ne {c : Char} {l : List Char}
    (h : l.all (fun ch => ch != c) = true) : c ∉ l := by
  intro hmem
  have := List.all_eq_true.1 h c hmem
  simp at this

theorem get_switch_nl_free (mode : MarkupMode) (a b : Option Markup) :
    ('\n') ∉ mode.get_switch a b := by
  cases mode
  · intro h
    cases h
  · show ('\n') ∉ (if a = b then [] else switch_ansi (b.getD Markup.None))
    split
    · intro h
      cases h
    · cases b.getD Markup.None <;> decide

theorem Printer.push_str_wide (p : Printer) (v : List Char) (w : Nat)
    (hind : p.indent = 0) :
    (p.push_str v w).1.out = p.out ++ v ∧
    (p.push_str v w).1.line_width = p.line_width + w ∧
    (p.line_width + w ≤ p.width → (p.push_str v w).2 = PrintResult.Fits) := by
  unfold Printer.push_str Printer.write_indent Printer.fits
  split
  · simp only [hind]
    refine ⟨by simp, by simp, fun hle => ?_⟩
    simp only [Nat.add_zero]
    rw [if_neg (Nat.not_lt.2 hle)]
  · refine ⟨rfl, rfl, fun hle => ?_⟩
    simp only
    rw [if_neg (Nat.not_lt.2 hle)]

theorem Printer.push_char_wide (p : Printer) (ch : Char) (hind : p.indent = 0) :
    (p.push_char ch).1.out = p.out ++ [ch] ∧
    (p.push_char ch).1.line_width = p.line_width + 1 ∧
    (p.line_width + 1 ≤ p.width → (p.push_char ch).2 = PrintResult.Fits) := by
  unfold Printer.push_char Printer.write_indent Printer.fits
  split
  · simp only [hind]
    refine ⟨by simp, by simp, fun hle => ?_⟩
    simp only [Nat.add_zero]
    rw [if_neg (Nat.not_lt.2 hle)]
  · refine ⟨rfl, rfl, fun hle => ?_⟩
    simp only
    rw [if_neg (Nat.not_lt.2 hle)]

mutual

/-- Rendering a break-free, well-formed document in wide mode at zero
indentation only appends line-break-free text, advances the line width by
exactly the wide width, and fits whenever the width budget accommodates the
accumulated line. -/
theorem Doc.wide_run : ∀ (d : Doc) (p : Printer),
    d.is_forced_tall = false → d.nl_free = true → p.indent = 0 →
    (∃ t, (d.print_to p Mode.Wide).1.out = p.out ++ t ∧ ('\n') ∉ t) ∧
    (d.print_to p Mode.Wide).1.line_width = p.line_width + d.wide_width ∧
    (p.line_width + d.wide_width ≤ p.width →
      (d.print_to p Mode.Wide).2 = PrintResult.Fits)
  | Doc.Str c w, p, hnb, hnl, hind => by
      obtain ⟨h1, h2, h3⟩ := p.push_str_wide c w hind
      exact ⟨⟨c, h1, List.not_mem_of_all_ne hnl⟩, h2, h3⟩
  | Doc.Strng c w, p, hnb, hnl, hind => by
      obtain ⟨h1, h2, h3⟩ := p.push_str_wide c w hind
      exact ⟨⟨c, h1, List.not_mem_of_all_ne hnl⟩, h2, h3⟩
  | Doc.WhenTall c w, p, hnb, hnl, hind =>
      ⟨⟨[], by simp [Doc.print_when_tall_wide], by simp⟩,
        by simp [Doc.print_when_tall_wide, Doc.wide_width],
        fun _ => rfl⟩
  | Doc.Sep, p, hnb, hnl, hind => by
      obtain ⟨h1, h2, h3⟩ := p.push_char_wide ' ' hind
      exact ⟨⟨[' '], h1, by decide⟩, h2, h3⟩
  | Doc.SoftBreak, p, hnb, hnl, hind =>
      ⟨⟨[], by simp [Doc.print_soft_wide], by simp⟩,
        by simp [Doc.print_soft_wide, Doc.wide_width],
        fun _ => rfl⟩
  | Doc.HardBreak, p, hnb, hnl, hind => nomatch hnb
  | Doc.RawBreak, p, hnb, hnl, hind => nomatch hnb
  | Doc.Concat children, p, hnb, hnl, hind =>
      Doc.wide_run_list children p PrintResult.Fits hnb hnl hind
  | Doc.Group inner, p, hnb, hnl, hind => by
      have hnbi : inner.is_forced_tall = false := hnb
      rw [Doc.print_group_wide inner p hnbi]
      exact Doc.wide_run inner p hnbi hnl hind
  | Doc.Indent inner, p, hnb, hnl, hind =>
      Doc.wide_run inner p hnb hnl hind
  | Doc.FlushIndent inner, p, hnb, hnl, hind =>
      Doc.wide_run inner p hnb hnl hind
  | Doc.Markup mk inner, p, hnb, hnl, hind => by
      rw [Doc.print_markup]
      unfold Printer.with_markup
      simp only
      obtain ⟨⟨t, ht, htn⟩, hlw, hfit⟩ := Doc.wide_run inner
        { p with
            out := p.out ++ p.markup_mode.get_switch p.markup (some mk)
            markup := some mk }
        hnb hnl hind
      refine ⟨⟨p.markup_mode.get_switch p.markup (some mk) ++ t ++
          p.markup_mode.get_switch (some mk) p.markup, ?_, ?_⟩, hlw, hfit⟩
      · rw [ht]
        simp
      · intro hmem
        rcases List.mem_append.1 hmem with hmem2 | hmem2
        · rcases List.mem_append.1 hmem2 with hmem3 | hmem3
          · exact get_switch_nl_free p.markup_mode p.markup (some mk) hmem3
          · exact htn hmem3
        · exact get_switch_nl_free p.markup_mode (some mk) p.markup hmem2

theorem Doc.wide_run_list : ∀ (ds : List Doc) (p : Printer) (r : PrintResult),
    Doc.any_forced ds = false → Doc.nl_free_list ds = true → p.indent = 0 →
    (∃ t, (Doc.print_concat ds p Mode.Wide r).1.out = p.out ++ t ∧ ('\n') ∉ t) ∧
    (Doc.print_concat ds p Mode.Wide r).1.line_width =
      p.line_width + Doc.wide_width_list ds ∧
    (p.line_width + Doc.wide_width_list ds ≤ p.width →
      (Doc.print_concat ds p Mode.Wide r).2 = r)
  | [], p, r, _, _, _ =>
      ⟨⟨[], by simp [Doc.print_concat_nil], by simp⟩,
        by simp [Doc.print_concat_nil, Doc.wide_width_list],
        fun _ => rfl⟩
  | d :: ds, p, r, hnb, hnl, hind => by
      have hnbd : d.is_forced_tall = false := by
        have := congrArg (fun b => b) hnb
        simp only [Doc.any_forced, Bool.or_eq_false_iff] at hnb
        exact hnb.1
      have hnbds : Doc.any_forced ds = false := by
        simp only [Doc.any_forced, Bool.or_eq_false_iff] at hnb
        exact hnb.2
      have hnld : d.nl_free = true := by
        simp only [Doc.nl_free_list, Bool.and_eq_true] at hnl
        exact hnl.1
      have hnlds : Doc.nl_free_list ds = true := by
        simp only [Doc.nl_free_list, Bool.and_eq_true] at hnl
        exact hnl.2
      rw [Doc.print_concat_cons]
      obtain ⟨⟨t1, ht1, ht1n⟩, hlw1, hfit1⟩ := Doc.wide_run d p hnbd hnld hind
      have hind1 : (d.print_to p Mode.Wide).1.indent = 0 :=
        (Doc.print_to_scoped d p Mode.Wide).1.trans hind
      obtain ⟨⟨t2, ht2, ht2n⟩, hlw2, hfit2⟩ := Doc.wide_run_list ds
        (d.print_to p Mode.Wide).1 ((d.print_to p Mode.Wide).2.max r)
        hnbds hnlds hind1
      have hwid : (d.print_to p Mode.Wide).1.width = p.width :=
        (Doc.print_to_scoped d p Mode.Wide).2.1
      refine ⟨⟨t1 ++ t2, ?_, ?_⟩, ?_, ?_⟩
      · rw [ht2, ht1]
        simp
      · intro hmem
        rcases List.mem_append.1 hmem with hmem2 | hmem2
        · exact ht1n hmem2
        · exact ht2n hmem2
      · rw [hlw2, hlw1]
        show p.line_width + d.wide_width + Doc.wide_width_list ds =
          p.line_width + (d.wide_width + Doc.wide_width_list ds)
        omega
      · intro hle
        rw [show Doc.wide_width_list (d :: ds) =
          d.wide_width + Doc.wide_width_list ds from rfl] at hle
        show (Doc.print_concat ds (d.print_to p Mode.Wide).1 Mode.Wide
          ((d.print_to p Mode.Wide).2.max r)).2 = r
        have hd_fits : (d.print_to p Mode.Wide).2 = PrintResult.Fits := by
          apply hfit1
          omega
        have htail := hfit2 (by
          rw [hlw1, hwid]
          omega)
        rw [htail, hd_fits, PrintResult.fits_max]

end

/-- C6 counterexample: a Sep outside any Group, rendered at a huge width
budget, still produces an interior line break, because the root of a
document is always rendered in Tall mode and only a Group switches to Wide:
the document made of a text fragment, a Sep and another text fragment has no
HardBreak or RawBreak anywhere, yet its rendering at width 1000000 contains
a line break before the final terminating one. -/
theorem C6_counterexample :
    ¬ (Doc.Concat [Doc.Str "a".toList 1, Doc.Sep,
        Doc.Str "b".toList 1]).contains_break ∧
    (Doc.Concat [Doc.Str "a".toList 1, Doc.Sep, Doc.Str "b".toList 1]).println
        ⟨1000000, MarkupMode.None⟩ = "a\nb\n".toList ∧
    ('\n') ∈ ("a\nb\n".toList).dropLast := by
  refine ⟨fun h => ?_, by decide, by decide⟩
  have h2 := (Doc.forced_iff_contains _).2 h
  exact absurd h2 (by decide)

/-- Characters of the trimmed buffer come from the buffer. -/
theorem Printer.trim_spaces_subset {c : Char} {l : List Char}
    (h : c ∈ Printer.trim_spaces l) : c ∈ l := by
  unfold Printer.trim_spaces at h
  rw [List.mem_reverse] at h
  have := (List.dropWhile_sublist (fun ch => decide (ch = ' '))).subset h
  rw [List.mem_reverse] at this
  exact this

/-- C6 (amended): for a document with no HardBreak or RawBreak, whose text
fragments are line-break-free, wrapped in a root Group (the unit of the
wide or tall choice), rendered with a width budget at least its wide width,
the output is a single-line wide rendering: no character before the final
position is a line break. -/
theorem C6_unbounded_width_single_line (d : Doc) (cfg : Config)
    (hb : ¬ d.contains_break) (hnl : d.nl_free = true)
    (hw : d.wide_width ≤ cfg.width) :
    ∀ c ∈ ((Doc.Group d).println cfg).dropLast, c ≠ '\n' := by
  have hnb : d.is_forced_tall = false := by
    rw [← Bool.not_eq_true]
    exact fun h => hb ((Doc.forced_iff_contains d).1 h)
  obtain ⟨⟨t, ht, htn⟩, hlw, hfit⟩ :=
    Doc.wide_run d (Printer.new cfg) hnb hnl rfl
  have hfits : (d.print_to (Printer.new cfg) Mode.Wide).2 = PrintResult.Fits :=
    hfit (by
      show 0 + d.wide_width ≤ cfg.width
      omega)
  show ∀ c ∈ ((((Doc.Group d).print_to (Printer.new cfg) Mode.Tall).1.flush_newline).1.into_inner).dropLast,
    c ≠ '\n'
  rw [Doc.print_group_tall d (Printer.new cfg) hnb]
  have hcommit := Printer.try_commit (Printer.new cfg)
    (fun q => d.print_to q Mode.Wide) hfits
  simp only [hcommit, hfits]
  intro c hc
  have ht0 : (d.print_to (Printer.new cfg) Mode.Wide).1.out = t := ht
  unfold Printer.flush_newline at hc
  by_cases hni : (d.print_to (Printer.new cfg) Mode.Wide).1.needs_indent = true
  · rw [if_pos hni] at hc
    unfold Printer.into_inner at hc
    rw [ht0] at hc
    intro hceq
    rw [hceq] at hc
    exact htn (List.dropLast_subset _ hc)
  · rw [if_neg hni] at hc
    unfold Printer.into_inner Printer.newline at hc
    simp only at hc
    rw [ht0] at hc
    rw [List.dropLast_concat] at hc
    intro hceq
    rw [hceq] at hc
    exact htn (Printer.trim_spaces_subset hc)

/-- Witness for C6 at a concrete input. -/
theorem C6_unbounded_width_single_line_witness :
    (¬ (Doc.Str "ab".toList 2).contains_break) ∧
    (Doc.Str "ab".toList 2).nl_free = true ∧
    (Doc.Str "ab".toList 2).wide_width ≤ (80 : Nat) ∧
    (∀ c ∈ ((Doc.Group (Doc.Str "ab".toList 2)).println
        ⟨80, MarkupMode.None⟩).dropLast, c ≠ '\n') :=
  ⟨fun h => (nomatch h), by decide, by decide,
    C6_unbounded_width_single_line (Doc.Str "ab".toList 2) ⟨80, MarkupMode.None⟩
      (fun h => (nomatch h)) (by decide) (by decide)⟩

end Rcl

/-! ## How often a node is evaluated during one render -/

namespace Rcl

mutual

/-- How many subterm occurrences of the target document t appear in d
(counting d itself when it equals t). -/
def Doc.occ_count : Doc → Doc → Nat
  | t, Doc.Concat ds => (if Doc.Concat ds = t then 1 else 0) + Doc.occ_count_list t ds
  | t, Doc.Group i => (if Doc.Group i = t then 1 else 0) + Doc.occ_count t i
  | t, Doc.Indent i => (if Doc.Indent i = t then 1 else 0) + Doc.occ_count t i
  | t, Doc.FlushIndent i =>
      (if Doc.FlushIndent i = t then 1 else 0) + Doc.occ_count t i
  | t, Doc.Markup mk i => (if Doc.Markup mk i = t then 1 else 0) + Doc.occ_count t i
  | t, d => if d = t then 1 else 0

def Doc.occ_count_list : Doc → List Doc → Nat
  | _, [] => 0
  | t, d :: ds => Doc.occ_count t d + Doc.occ_count_list t ds

end

mutual

/-- The deepest nesting of Group nodes in a document. -/
def Doc.group_depth : Doc → Nat
  | Doc.Concat ds => Doc.group_depth_list ds
  | Doc.Group i => 1 + i.group_depth
  | Doc.Indent i => i.group_depth
  | Doc.FlushIndent i => i.group_depth
  | Doc.Markup _ i => i.group_depth
  | _ => 0

def Doc.group_depth_list : List Doc → Nat
  | [] => 0
  | d :: ds => Nat.max d.group_depth (Doc.group_depth_list ds)

end

mutual

/-- How many times print_to is invoked on subterm occurrences of the target
document t while rendering d from printer state p in mode m.  This mirrors
the control flow of Doc.print_to exactly, reusing print_to itself for the
intermediate printer states, and adds one for the current node when it is
the target. -/
def Doc.count_visits : Doc → Doc → Printer → Mode → Nat
  | t, Doc.Concat ds, p, m =>
      (if Doc.Concat ds = t then 1 else 0) + Doc.count_visits_list t ds p m
  | t, Doc.Group inner, p, m =>
      (if Doc.Group inner = t then 1 else 0) +
        (if inner.is_forced_tall then Doc.count_visits t inner p m
         else
          match m with
          | Mode.Wide => Doc.count_visits t inner p Mode.Wide
          | Mode.Tall =>
              let pr := p.try_ (fun q => inner.print_to q Mode.Wide)
              Doc.count_visits t inner p Mode.Wide +
                (match pr.2 with
                 | PrintResult.Overflow => Doc.count_visits t inner pr.1 Mode.Tall
                 | PrintResult.Fits => 0))
  | t, Doc.Indent inner, p, m =>
      (if Doc.Indent inner = t then 1 else 0) +
        (match m with
         | Mode.Wide => Doc.count_visits t inner p Mode.Wide
         | Mode.Tall =>
             Doc.count_visits t inner { p with indent := p.indent + 2 } Mode.Tall)
  | t, Doc.FlushIndent inner, p, m =>
      (if Doc.FlushIndent inner = t then 1 else 0) +
        (match m with
         | Mode.Wide => Doc.count_visits t inner p Mode.Wide
         | Mode.Tall =>
             let pb := p.flush_newline
             if pb.2 then
               Doc.count_visits t inner { pb.1 with indent := pb.1.indent + 2 }
                 Mode.Tall
             else Doc.count_visits t inner pb.1 Mode.Tall)
  | t, Doc.Markup mk inner, p, m =>
      (if Doc.Markup mk inner = t then 1 else 0) +
        Doc.count_visits t inner
          { p with
              out := p.out ++ p.markup_mode.get_switch p.markup (some mk)
              markup := some mk } m
  | t, d, p, m => if d = t then 1 else 0

def Doc.count_visits_list : Doc → List Doc → Printer → Mode → Nat
  | _, [], _, _ => 0
  | t, d :: ds, p, m =>
      Doc.count_visits t d p m +
        Doc.count_visits_list t ds (d.print_to p m).1 m

end

mutual

/-- In wide mode every node is evaluated exactly once, so the number of
visits of the target equals its number of occurrences. -/
theorem Doc.count_wide_eq : ∀ (t d : Doc) (p : Printer),
    Doc.count_visits t d p Mode.Wide = Doc.occ_count t d
  | t, Doc.Str c w, p => rfl
  | t, Doc.Strng c w, p => rfl
  | t, Doc.WhenTall c w, p => rfl
  | t, Doc.Sep, p => rfl
  | t, Doc.SoftBreak, p => rfl
  | t, Doc.HardBreak, p => rfl
  | t, Doc.RawBreak, p => rfl
  | t, Doc.Concat ds, p => by
      show _ + Doc.count_visits_list t ds p Mode.Wide = _ + Doc.occ_count_list t ds
      rw [Doc.count_wide_eq_list t ds p]
  | t, Doc.Group inner, p => by
      show _ + (if inner.is_forced_tall then Doc.count_visits t inner p Mode.Wide
        else Doc.count_visits t inner p Mode.Wide) = _ + Doc.occ_count t inner
      rw [ite_self, Doc.count_wide_eq t inner p]
  | t, Doc.Indent inner, p => by
      show _ + Doc.count_visits t inner p Mode.Wide = _ + Doc.occ_count t inner
      rw [Doc.count_wide_eq t inner p]
  | t, Doc.FlushIndent inner, p => by
      show _ + Doc.count_visits t inner p Mode.Wide = _ + Doc.occ_count t inner
      rw [Doc.count_wide_eq t inner p]
  | t, Doc.Markup mk inner, p => by
      show _ + Doc.count_visits t inner _ Mode.Wide = _ + Doc.occ_count t inner
      rw [Doc.count_wide_eq t inner _]

theorem Doc.count_wide_eq_list : ∀ (t : Doc) (ds : List Doc) (p : Printer),
    Doc.count_visits_list t ds p Mode.Wide = Doc.occ_count_list t ds
  | t, [], p => rfl
  | t, d :: ds, p => by
      show Doc.count_visits t d p Mode.Wide +
        Doc.count_visits_list t ds (d.print_to p Mode.Wide).1 Mode.Wide = _
      rw [Doc.count_wide_eq t d p, Doc.count_wide_eq_list t ds _]
      rfl

end

theorem visits_helper_once (ind g : Nat) : ind ≤ ind * (1 + g) := by
  nlinarith

theorem visits_helper_forced (ind a ct g : Nat) (h : ct ≤ a * (1 + g)) :
    ind + ct ≤ (ind + a) * (1 + (1 + g)) := by
  nlinarith

theorem visits_helper_group (ind a ct g : Nat) (h : ct ≤ a * (1 + g)) :
    ind + (a + ct) ≤ (ind + a) * (1 + (1 + g)) := by
  nlinarith

theorem visits_helper_inner (ind a ct g : Nat) (h : ct ≤ a * (1 + g)) :
    ind + ct ≤ (ind + a) * (1 + g) := by
  nlinarith

theorem visits_helper_list (cd cl od ol gd gl : Nat) (h1 : cd ≤ od * (1 + gd))
    (h2 : cl ≤ ol * (1 + gl)) :
    cd + cl ≤ (od + ol) * (1 + Nat.max gd gl) := by
  have h3 : od * (1 + gd) ≤ od * (1 + Nat.max gd gl) :=
    Nat.mul_le_mul (Nat.le_refl od) (Nat.add_le_add_left (Nat.le_max_left gd gl) 1)
  have h4 : ol * (1 + gl) ≤ ol * (1 + Nat.max gd gl) :=
    Nat.mul_le_mul (Nat.le_refl ol) (Nat.add_le_add_left (Nat.le_max_right gd gl) 1)
  nlinarith

mutual

/-- Each occurrence of the target is visited at most once per enclosing
Group nesting level plus once. -/
theorem Doc.count_visits_le : ∀ (t d : Doc) (p : Printer) (m : Mode),
    Doc.count_visits t d p m ≤ Doc.occ_count t d * (1 + Doc.group_depth d)
  | t, Doc.Str c w, p, m => visits_helper_once _ _
  | t, Doc.Strng c w, p, m => visits_helper_once _ _
  | t, Doc.WhenTall c w, p, m => visits_helper_once _ _
  | t, Doc.Sep, p, m => visits_helper_once _ _
  | t, Doc.SoftBreak, p, m => visits_helper_once _ _
  | t, Doc.HardBreak, p, m => visits_helper_once _ _
  | t, Doc.RawBreak, p, m => visits_helper_once _ _
  | t, Doc.Concat ds, p, m => by
      show (if Doc.Concat ds = t then 1 else 0) + Doc.count_visits_list t ds p m ≤
        ((if Doc.Concat ds = t then 1 else 0) + Doc.occ_count_list t ds) *
          (1 + Doc.group_depth_list ds)
      have h := Doc.count_visits_list_le t ds p m
      have h2 := visits_helper_inner (if Doc.Concat ds = t then 1 else 0)
        (Doc.occ_count_list t ds) (Doc.count_visits_list t ds p m)
        (Doc.group_depth_list ds) h
      exact h2
  | t, Doc.Group inner, p, m => by
      show (if Doc.Group inner = t then 1 else 0) + _ ≤
        ((if Doc.Group inner = t then 1 else 0) + Doc.occ_count t inner) *
          (1 + (1 + inner.group_depth))
      by_cases hf : inner.is_forced_tall = true
      · rw [if_pos hf]
        exact visits_helper_forced _ _ _ _ (Doc.count_visits_le t inner p m)
      · rw [Bool.not_eq_true] at hf
        rw [if_neg (show ¬ (inner.is_forced_tall = true) by
          rw [hf]
          exact Bool.false_ne_true)]
        cases m
        · exact visits_helper_forced _ _ _ _ (Doc.count_visits_le t inner p Mode.Wide)
        · simp only
          rw [Doc.count_wide_eq t inner p]
          cases (p.try_ (fun q => inner.print_to q Mode.Wide)).2
          · simp only
            have : Doc.occ_count t inner + 0 = Doc.occ_count t inner := by omega
            rw [this]
            exact visits_helper_forced _ _ _ _
              (Nat.le_mul_of_pos_right _ (by omega))
          · simp only
            exact visits_helper_group _ _ _ _
              (Doc.count_visits_le t inner _ Mode.Tall)
  | t, Doc.Indent inner, p, m => by
      show (if Doc.Indent inner = t then 1 else 0) + _ ≤
        ((if Doc.Indent inner = t then 1 else 0) + Doc.occ_count t inner) *
          (1 + inner.group_depth)
      cases m
      · exact visits_helper_inner _ _ _ _ (Doc.count_visits_le t inner p Mode.Wide)
      · exact visits_helper_inner _ _ _ _ (Doc.count_visits_le t inner _ Mode.Tall)
  | t, Doc.FlushIndent inner, p, m => by
      show (if Doc.FlushIndent inner = t then 1 else 0) + _ ≤
        ((if Doc.FlushIndent inner = t then 1 else 0) + Doc.occ_count t inner) *
          (1 + inner.group_depth)
      cases m
      · exact visits_helper_inner _ _ _ _ (Doc.count_visits_le t inner p Mode.Wide)
      · simp only
        by_cases hb : (p.flush_newline).2 = true
        · rw [if_pos hb]
          exact visits_helper_inner _ _ _ _ (Doc.count_visits_le t inner _ Mode.Tall)
        · rw [if_neg hb]
          exact visits_helper_inner _ _ _ _ (Doc.count_visits_le t inner _ Mode.Tall)
  | t, Doc.Markup mk inner, p, m => by
      show (if Doc.Markup mk inner = t then 1 else 0) + _ ≤
        ((if Doc.Markup mk inner = t then 1 else 0) + Doc.occ_count t inner) *
          (1 + inner.group_depth)
      exact visits_helper_inner _ _ _ _ (Doc.count_visits_le t inner _ m)

theorem Doc.count_visits_list_le : ∀ (t : Doc) (ds : List Doc) (p : Printer)
    (m : Mode),
    Doc.count_visits_list t ds p m ≤
      Doc.occ_count_list t ds * (1 + Doc.group_depth_list ds)
  | t, [], p, m => by
      show 0 ≤ _
      omega
  | t, d :: ds, p, m => by
      show Doc.count_visits t d p m +
        Doc.count_visits_list t ds (d.print_to p m).1 m ≤
        (Doc.occ_count t d + Doc.occ_count_list t ds) *
          (1 + Nat.max d.group_depth (Doc.group_depth_list ds))
      exact visits_helper_list _ _ _ _ _ _
        (Doc.count_visits_le t d p m)
        (Doc.count_visits_list_le t ds (d.print_to p m).1 m)

end

/-- C8 counterexample: a text fragment nested under two Groups, rendered at
width one, is evaluated three times: once in the speculative wide pass of
the outer group, once more in the speculative wide pass of the inner group
after the outer one fell back to tall, and a third time in the final tall
pass.  The claim that every node is evaluated at most twice is false. -/
theorem C8_counterexample :
    Doc.count_visits (Doc.Str "aaaa".toList 4)
      (Doc.Group (Doc.Group (Doc.Str "aaaa".toList 4)))
      (Printer.new ⟨1, MarkupMode.None⟩) Mode.Tall = 3 ∧
    Doc.occ_count (Doc.Str "aaaa".toList 4)
      (Doc.Group (Doc.Group (Doc.Str "aaaa".toList 4))) = 1 ∧
    (3 : Nat) > 2 * 1 := by
  refine ⟨by decide, by decide, by omega⟩

/-- C8 (amended): rendering is a total function of the finite tree (the
evaluator terminates by construction), in wide mode every node is evaluated
exactly once, and in tall mode each occurrence of a node is evaluated at
most once per enclosing Group nesting level plus once: the number of visits
is bounded by the occurrence count times one plus the Group nesting depth.
The original at most twice bound holds only up to one level of Group
nesting and fails below two nested Groups. -/
theorem C8_visit_bound (t d : Doc) (p : Printer) (m : Mode) :
    Doc.count_visits t d p m ≤ Doc.occ_count t d * (1 + Doc.group_depth d) ∧
    Doc.count_visits t d p Mode.Wide = Doc.occ_count t d :=
  ⟨Doc.count_visits_le t d p m, Doc.count_wide_eq t d p⟩

end Rcl

/-! ## Markup stripping: Ansi output against None output

The escape sequences emitted by get_switch all have the shape ESC ... m.
Stripping scans the buffer with a single in-escape flag: ESC enters an
escape, the letter m leaves it, everything outside escapes is kept. -/

namespace Rcl

/-- Strip ANSI escapes from a character list, scanning with an in-escape
state; returns the kept characters and the final state. -/
def strip_state : List Char → Bool → List Char × Bool
  | [], s => ([], s)
  | c :: cs, true =>
      if c = 'm' then strip_state cs false else strip_state cs true
  | c :: cs, false =>
      if c = '\x1b' then strip_state cs true
      else
        let r := strip_state cs false
        (c :: r.1, r.2)

/-- All ANSI escape sequences removed. -/
def strip_ansi (l : List Char) : List Char := (strip_state l false).1

/-- The buffer contains only complete escape sequences. -/
def EscClosed (l : List Char) : Prop := (strip_state l false).2 = false

/-- Drop the leading spaces of a character list. -/
def dropSpaces : List Char → List Char
  | [] => []
  | c :: cs => if c = ' ' then dropSpaces cs else c :: cs

/-- Remove the spaces that sit immediately before a line break, working on
the reversed list: after passing a line break, skip the spaces that follow
it (that is, precede it in the original). -/
def rnorm_aux : Bool → List Char → List Char
  | _, [] => []
  | skip, c :: rest =>
      if skip = true ∧ c = ' ' then rnorm_aux true rest
      else if c = '\n' then c :: rnorm_aux true rest
      else c :: rnorm_aux false rest

/-- Remove the spaces immediately preceding each line break. -/
def normalize (l : List Char) : List Char := (rnorm_aux false l.reverse).reverse

theorem dropWhile_space_eq_dropSpaces : ∀ l : List Char,
    l.dropWhile (fun c => c = ' ') = dropSpaces l
  | [] => rfl
  | c :: cs => by
      by_cases hc : c = ' '
      · rw [show dropSpaces (c :: cs) = dropSpaces cs from if_pos hc]
        rw [List.dropWhile_cons_of_pos (by simp [hc])]
        exact dropWhile_space_eq_dropSpaces cs
      · rw [show dropSpaces (c :: cs) = c :: cs from if_neg hc]
        exact List.dropWhile_cons_of_neg (by simp [hc])

theorem trim_spaces_eq (l : List Char) :
    Printer.trim_spaces l = (dropSpaces l.reverse).reverse := by
  unfold Printer.trim_spaces
  rw [dropWhile_space_eq_dropSpaces]

theorem strip_state_append : ∀ (a b : List Char) (s : Bool),
    strip_state (a ++ b) s =
      ((strip_state a s).1 ++ (strip_state b (strip_state a s).2).1,
        (strip_state b (strip_state a s).2).2)
  | [], b, s => by
      show strip_state b s = (([] : List Char) ++ (strip_state b s).1, (strip_state b s).2)
      simp
  | c :: cs, b, true => by
      show strip_state (c :: (cs ++ b)) true = _
      by_cases hc : c = 'm'
      · rw [show strip_state (c :: (cs ++ b)) true = strip_state (cs ++ b) false from
          by simp [strip_state, hc]]
        rw [show strip_state (c :: cs) true = strip_state cs false from
          by simp [strip_state, hc]]
        exact strip_state_append cs b false
      · rw [show strip_state (c :: (cs ++ b)) true = strip_state (cs ++ b) true from
          by simp [strip_state, hc]]
        rw [show strip_state (c :: cs) true = strip_state cs true from
          by simp [strip_state, hc]]
        exact strip_state_append cs b true
  | c :: cs, b, false => by
      show strip_state (c :: (cs ++ b)) false = _
      by_cases hc : c = '\x1b'
      · rw [show strip_state (c :: (cs ++ b)) false = strip_state (cs ++ b) true from
          by simp [strip_state, hc]]
        rw [show strip_state (c :: cs) false = strip_state cs true from
          by simp [strip_state, hc]]
        exact strip_state_append cs b true
      · rw [show strip_state (c :: (cs ++ b)) false =
            ((c :: (strip_state (cs ++ b) false).1, (strip_state (cs ++ b) false).2) :
              List Char × Bool) from by simp [strip_state, hc]]
        rw [show strip_state (c :: cs) false =
            ((c :: (strip_state cs false).1, (strip_state cs false).2) :
              List Char × Bool) from by simp [strip_state, hc]]
        rw [strip_state_append cs b false]
        rfl

theorem strip_state_clean : ∀ (c : List Char), ('\x1b') ∉ c →
    strip_state c false = (c, false)
  | [], _ => rfl
  | x :: xs, h => by
      have hx : ¬ x = '\x1b' := fun hh => h (hh ▸ List.mem_cons_self x xs)
      have hxs : ('\x1b') ∉ xs := fun hh => h (List.mem_cons_of_mem x hh)
      rw [show strip_state (x :: xs) false =
          ((x :: (strip_state xs false).1, (strip_state xs false).2) :
            List Char × Bool) from by simp [strip_state, hx]]
      rw [strip_state_clean xs hxs]

theorem strip_state_in_escape_no_m : ∀ (b : List Char), ('m') ∉ b →
    (strip_state b true).2 = true
  | [], _ => rfl
  | x :: xs, h => by
      have hx : ¬ x = 'm' := fun hh => h (hh ▸ List.mem_cons_self x xs)
      have hxs : ('m') ∉ xs := fun hh => h (List.mem_cons_of_mem x hh)
      rw [show strip_state (x :: xs) true = strip_state xs true from
        by simp [strip_state, hx]]
      exact strip_state_in_escape_no_m xs hxs

/-- A closed buffer stays closed when the dropped suffix contains no m. -/
theorem esc_closed_of_append {a b : List Char} (h : EscClosed (a ++ b))
    (hm : ('m') ∉ b) : EscClosed a := by
  unfold EscClosed at h ⊢
  rw [strip_state_append] at h
  by_cases hs : (strip_state a false).2 = false
  · exact hs
  · rw [Bool.not_eq_false] at hs
    rw [hs, strip_state_in_escape_no_m b hm] at h
    cases h

/-- The switch strings of the modelled get_switch always strip to nothing
and leave the scanner outside an escape. -/
theorem strip_state_get_switch (mode : MarkupMode) (a b : Option Markup) :
    strip_state (mode.get_switch a b) false = ([], false) := by
  cases mode
  · rfl
  · show strip_state (if a = b then [] else switch_ansi (b.getD Markup.None)) false =
      ([], false)
    split
    · rfl
    · cases b.getD Markup.None <;> decide

theorem rnorm_aux_no_newline : ∀ (u w : List Char), ('\n') ∉ u →
    rnorm_aux false (u ++ w) = u ++ rnorm_aux false w
  | [], w, _ => rfl
  | x :: xs, w, h => by
      have hx : ¬ x = '\n' := fun hh => h (hh ▸ List.mem_cons_self x xs)
      have hxs : ('\n') ∉ xs := fun hh => h (List.mem_cons_of_mem x hh)
      show rnorm_aux false (x :: (xs ++ w)) = _
      rw [show rnorm_aux false (x :: (xs ++ w)) = x :: rnorm_aux false (xs ++ w) from
        by simp [rnorm_aux, hx]]
      rw [rnorm_aux_no_newline xs w hxs]
      rfl

theorem rnorm_aux_skip : ∀ w : List Char,
    rnorm_aux true w = rnorm_aux false (dropSpaces w)
  | [] => rfl
  | x :: xs => by
      by_cases hx : x = ' '
      · rw [show rnorm_aux true (x :: xs) = rnorm_aux true xs from
          by simp [rnorm_aux, hx]]
        rw [show dropSpaces (x :: xs) = dropSpaces xs from if_pos hx]
        exact rnorm_aux_skip xs
      · rw [show dropSpaces (x :: xs) = x :: xs from if_neg hx]
        by_cases hn : x = '\n'
        · rw [show rnorm_aux true (x :: xs) = x :: rnorm_aux true xs from
            by simp [rnorm_aux, hx, hn]]
          rw [show rnorm_aux false (x :: xs) = x :: rnorm_aux true xs from
            by simp [rnorm_aux, hn]]
        · rw [show rnorm_aux true (x :: xs) = x :: rnorm_aux false xs from
            by simp [rnorm_aux, hx, hn]]
          rw [show rnorm_aux false (x :: xs) = x :: rnorm_aux false xs from
            by simp [rnorm_aux, hx, hn]]

theorem rnorm_aux_dropSpaces : ∀ w : List Char,
    rnorm_aux false (dropSpaces w) = dropSpaces (rnorm_aux false w)
  | [] => rfl
  | x :: xs => by
      by_cases hx : x = ' '
      · rw [show dropSpaces (x :: xs) = dropSpaces xs from if_pos hx]
        rw [show rnorm_aux false (x :: xs) = x :: rnorm_aux false xs from
          by simp [rnorm_aux, hx]]
        rw [show dropSpaces (x :: rnorm_aux false xs) = dropSpaces (rnorm_aux false xs)
          from if_pos hx]
        exact rnorm_aux_dropSpaces xs
      · rw [show dropSpaces (x :: xs) = x :: xs from if_neg hx]
        by_cases hn : x = '\n'
        · rw [show rnorm_aux false (x :: xs) = x :: rnorm_aux true xs from
            by simp [rnorm_aux, hn]]
          rw [show dropSpaces (x :: rnorm_aux true xs) = x :: rnorm_aux true xs from
            if_neg hx]
        · rw [show rnorm_aux false (x :: xs) = x :: rnorm_aux false xs from
            by simp [rnorm_aux, hx, hn]]
          rw [show dropSpaces (x :: rnorm_aux false xs) = x :: rnorm_aux false xs from
            if_neg hx]

end Rcl

namespace Rcl

theorem dropSpaces_all_spaces_append : ∀ (u w : List Char), (∀ x ∈ u, x = ' ') →
    dropSpaces (u ++ w) = dropSpaces w
  | [], w, _ => rfl
  | x :: xs, w, h => by
      have hx : x = ' ' := h x (List.mem_cons_self x xs)
      show dropSpaces (x :: (xs ++ w)) = _
      rw [show dropSpaces (x :: (xs ++ w)) = dropSpaces (xs ++ w) from if_pos hx]
      exact dropSpaces_all_spaces_append xs w
        (fun y hy => h y (List.mem_cons_of_mem x hy))

/-- Appending a run of spaces does not change the trailing space trim. -/
theorem trim_spaces_append_spaces (y s : List Char) (hs : ∀ x ∈ s, x = ' ') :
    Printer.trim_spaces (y ++ s) = Printer.trim_spaces y := by
  rw [trim_spaces_eq, trim_spaces_eq, List.reverse_append]
  rw [dropSpaces_all_spaces_append s.reverse y.reverse
    (fun x hx => hs x (List.mem_reverse.1 hx))]

/-- Every buffer splits into its trailing space trim and a run of spaces. -/
theorem trim_spaces_decomp (l : List Char) :
    ∃ s, l = Printer.trim_spaces l ++ s ∧ ∀ x ∈ s, x = ' ' := by
  refine ⟨(l.reverse.takeWhile (fun c => c = ' ')).reverse, ?_, ?_⟩
  · show l = (l.reverse.dropWhile (fun c => c = ' ')).reverse ++
      (l.reverse.takeWhile (fun c => c = ' ')).reverse
    rw [← List.reverse_append, List.takeWhile_append_dropWhile, List.reverse_reverse]
  · intro x hx
    have hx2 := List.mem_reverse.1 hx
    have hx3 := List.mem_takeWhile_imp hx2
    simpa using hx3

/-- Appending escape free text to a closed buffer: the stripped text gains
exactly that text, and the buffer stays closed. -/
theorem strip_append_clean (x c : List Char) (hx : EscClosed x)
    (hc : ('\x1b') ∉ c) :
    strip_ansi (x ++ c) = strip_ansi x ++ c ∧ EscClosed (x ++ c) := by
  unfold EscClosed at hx ⊢
  unfold strip_ansi
  rw [strip_state_append, hx, strip_state_clean c hc]
  exact ⟨rfl, rfl⟩

/-- Appending a complete escape sequence to a closed buffer: the stripped
text is unchanged, and the buffer stays closed. -/
theorem strip_append_esc (x e : List Char) (hx : EscClosed x)
    (he : strip_state e false = ([], false)) :
    strip_ansi (x ++ e) = strip_ansi x ∧ EscClosed (x ++ e) := by
  unfold EscClosed at hx ⊢
  unfold strip_ansi
  rw [strip_state_append, hx, he]
  exact ⟨by simp, rfl⟩

/-- Normalizing after appending line break free text appends that text. -/
theorem normalize_append_text (X c : List Char) (hc : ('\n') ∉ c) :
    normalize (X ++ c) = normalize X ++ c := by
  unfold normalize
  rw [List.reverse_append]
  rw [rnorm_aux_no_newline c.reverse X.reverse
    (fun h => hc (List.mem_reverse.1 h))]
  rw [List.reverse_append, List.reverse_reverse]

/-- Normalizing after a newline: the spaces before the break are trimmed. -/
theorem normalize_append_newline (l : List Char) :
    normalize (l ++ ['\n']) = normalize (Printer.trim_spaces l) ++ ['\n'] := by
  unfold normalize
  rw [List.reverse_append]
  show (rnorm_aux false ('\n' :: l.reverse)).reverse = _
  rw [show rnorm_aux false ('\n' :: l.reverse) = '\n' :: rnorm_aux true l.reverse from
    by simp [rnorm_aux]]
  rw [rnorm_aux_skip]
  rw [show (Printer.trim_spaces l).reverse = dropSpaces l.reverse from by
    rw [trim_spaces_eq, List.reverse_reverse]]
  rw [List.reverse_cons]

/-- Trailing space trimming commutes with normalization. -/
theorem normalize_trim_comm (l : List Char) :
    normalize (Printer.trim_spaces l) = Printer.trim_spaces (normalize l) := by
  unfold normalize
  rw [show (Printer.trim_spaces l).reverse = dropSpaces l.reverse from by
    rw [trim_spaces_eq, List.reverse_reverse]]
  rw [rnorm_aux_dropSpaces]
  rw [trim_spaces_eq, List.reverse_reverse]

theorem dropSpaces_idem : ∀ w : List Char, dropSpaces (dropSpaces w) = dropSpaces w
  | [] => rfl
  | c :: cs => by
      by_cases hc : c = ' '
      · rw [show dropSpaces (c :: cs) = dropSpaces cs from if_pos hc]
        exact dropSpaces_idem cs
      · rw [show dropSpaces (c :: cs) = c :: cs from if_neg hc]
        exact if_neg hc

theorem trim_spaces_idem (l : List Char) :
    Printer.trim_spaces (Printer.trim_spaces l) = Printer.trim_spaces l := by
  rw [trim_spaces_eq, trim_spaces_eq, List.reverse_reverse, dropSpaces_idem]

/-- The two coupled newline steps preserve the output relation. -/
theorem out_rel_newline (x y : List Char) (hx : EscClosed x)
    (h : normalize (strip_ansi x) = normalize y) :
    EscClosed (Printer.trim_spaces x ++ ['\n']) ∧
    normalize (strip_ansi (Printer.trim_spaces x ++ ['\n'])) =
      normalize (Printer.trim_spaces y ++ ['\n']) := by
  obtain ⟨s, hdec, hsp⟩ := trim_spaces_decomp x
  have hm : ('m') ∉ s := fun hmem => by
    have := hsp _ hmem
    simp at this
  have hesc : ('\x1b') ∉ s := fun hmem => by
    have := hsp _ hmem
    simp at this
  have hnl : ('\n') ∉ s := fun hmem => by
    have := hsp _ hmem
    simp at this
  have hx0 : EscClosed (Printer.trim_spaces x) := by
    rw [hdec] at hx
    exact esc_closed_of_append hx hm
  obtain ⟨hs1, hs2⟩ := strip_append_clean (Printer.trim_spaces x) ['\n'] hx0
    (by decide)
  refine ⟨hs2, ?_⟩
  rw [hs1, normalize_append_newline]
  have hxs : strip_ansi x = strip_ansi (Printer.trim_spaces x) ++ s := by
    conv =>
      lhs
      rw [hdec]
    exact (strip_append_clean (Printer.trim_spaces x) s hx0 hesc).1
  have htr : Printer.trim_spaces (strip_ansi (Printer.trim_spaces x)) =
      Printer.trim_spaces (strip_ansi x) := by
    rw [hxs, trim_spaces_append_spaces _ s hsp]
  rw [htr, normalize_trim_comm, h, ← normalize_trim_comm,
    normalize_append_newline, trim_spaces_idem]

end Rcl

namespace Rcl

mutual

/-- Well-formedness for the markup claim: no text fragment contains the
escape character, so stripping escapes can never eat document text. -/
def Doc.esc_free : Doc → Bool
  | Doc.Str c _ => c.all (fun ch => ch != '\x1b')
  | Doc.Strng c _ => c.all (fun ch => ch != '\x1b')
  | Doc.WhenTall c _ => c.all (fun ch => ch != '\x1b')
  | Doc.Concat children => Doc.esc_free_list children
  | Doc.Group inner => inner.esc_free
  | Doc.Indent inner => inner.esc_free
  | Doc.FlushIndent inner => inner.esc_free
  | Doc.Markup _ inner => inner.esc_free
  | _ => true

def Doc.esc_free_list : List Doc → Bool
  | [] => true
  | d :: ds => d.esc_free && Doc.esc_free_list ds

end

/-- Coupling between an Ansi mode render and a None mode render: all layout
state agrees, the Ansi buffer contains only complete escapes, and both
buffers agree after stripping escapes and deleting the spaces that sit
before line breaks. -/
structure MarkupRel (a n : Printer) : Prop where
  width_eq : a.width = n.width
  line_width_eq : a.line_width = n.line_width
  indent_eq : a.indent = n.indent
  needs_indent_eq : a.needs_indent = n.needs_indent
  markup_eq : a.markup = n.markup
  mode_a : a.markup_mode = MarkupMode.Ansi
  mode_n : n.markup_mode = MarkupMode.None
  closed : EscClosed a.out
  out_rel : normalize (strip_ansi a.out) = normalize n.out

/-- Appending the same escape free, break free text to both buffers keeps
the coupling. -/
theorem MarkupRel.append_text {a n : Printer} (h : MarkupRel a n)
    (va vn : List Char) (hv : va = vn)
    (hnl : ('\n') ∉ va) (hesc : ('\x1b') ∉ va)
    (lwa lwn : Nat) (hlw : lwa = lwn) (nia nin : Bool) (hni : nia = nin) :
    MarkupRel { a with out := a.out ++ va, line_width := lwa, needs_indent := nia }
      { n with out := n.out ++ vn, line_width := lwn, needs_indent := nin } := by
  subst hv
  obtain ⟨hs1, hs2⟩ := strip_append_clean a.out va h.closed hesc
  exact {
    width_eq := h.width_eq
    line_width_eq := hlw
    indent_eq := h.indent_eq
    needs_indent_eq := hni
    markup_eq := h.markup_eq
    mode_a := h.mode_a
    mode_n := h.mode_n
    closed := hs2
    out_rel := by
      show normalize (strip_ansi (a.out ++ va)) = normalize (n.out ++ va)
      rw [hs1, normalize_append_text _ va hnl, normalize_append_text _ va hnl,
        h.out_rel] }

theorem Printer.write_indent_coupling {a n : Printer} (h : MarkupRel a n) :
    MarkupRel a.write_indent n.write_indent := by
  unfold Printer.write_indent
  by_cases ha : a.needs_indent = true
  · rw [if_pos ha, if_pos (h.needs_indent_eq ▸ ha)]
    have h1 : ('\n') ∉ List.replicate a.indent ' ' := fun hm => by
      have := List.eq_of_mem_replicate hm
      simp at this
    have h2 : ('\x1b') ∉ List.replicate a.indent ' ' := fun hm => by
      have := List.eq_of_mem_replicate hm
      simp at this
    exact h.append_text (List.replicate a.indent ' ') (List.replicate n.indent ' ')
      (by rw [h.indent_eq]) h1 h2
      (a.line_width + a.indent) (n.line_width + n.indent)
      (by rw [h.line_width_eq, h.indent_eq]) false false rfl
  · rw [if_neg ha, if_neg (h.needs_indent_eq ▸ ha)]
    exact h

theorem Printer.push_str_coupling {a n : Printer} (h : MarkupRel a n)
    (v : List Char) (w : Nat) (hnl : ('\n') ∉ v) (hesc : ('\x1b') ∉ v) :
    MarkupRel (a.push_str v w).1 (n.push_str v w).1 ∧
      (a.push_str v w).2 = (n.push_str v w).2 := by
  have hwi := Printer.write_indent_coupling h
  unfold Printer.push_str
  constructor
  · exact hwi.append_text v v rfl hnl hesc
      (a.write_indent.line_width + w) (n.write_indent.line_width + w)
      (by rw [hwi.line_width_eq])
      a.write_indent.needs_indent n.write_indent.needs_indent
      hwi.needs_indent_eq
  · show Printer.fits _ = Printer.fits _
    unfold Printer.fits
    rw [hwi.line_width_eq, hwi.width_eq]

theorem Printer.push_char_coupling {a n : Printer} (h : MarkupRel a n)
    (ch : Char) (hnl : ¬ ch = '\n') (hesc : ¬ ch = '\x1b') :
    MarkupRel (a.push_char ch).1 (n.push_char ch).1 ∧
      (a.push_char ch).2 = (n.push_char ch).2 := by
  have hwi := Printer.write_indent_coupling h
  unfold Printer.push_char
  constructor
  · exact hwi.append_text [ch] [ch] rfl
      (fun hm => hnl (List.eq_of_mem_singleton hm).symm)
      (fun hm => hesc (List.eq_of_mem_singleton hm).symm)
      (a.write_indent.line_width + 1) (n.write_indent.line_width + 1)
      (by rw [hwi.line_width_eq])
      a.write_indent.needs_indent n.write_indent.needs_indent
      hwi.needs_indent_eq
  · show Printer.fits _ = Printer.fits _
    unfold Printer.fits
    rw [hwi.line_width_eq, hwi.width_eq]

theorem Printer.newline_coupling {a n : Printer} (h : MarkupRel a n) :
    MarkupRel (a.newline).1 (n.newline).1 ∧ (a.newline).2 = (n.newline).2 := by
  obtain ⟨hc, hrel⟩ := out_rel_newline a.out n.out h.closed h.out_rel
  refine ⟨{
    width_eq := h.width_eq
    line_width_eq := rfl
    indent_eq := h.indent_eq
    needs_indent_eq := rfl
    markup_eq := h.markup_eq
    mode_a := h.mode_a
    mode_n := h.mode_n
    closed := hc
    out_rel := hrel }, rfl⟩

theorem Printer.raw_newline_coupling {a n : Printer} (h : MarkupRel a n) :
    MarkupRel (a.raw_newline).1 (n.raw_newline).1 ∧
      (a.raw_newline).2 = (n.raw_newline).2 := by
  obtain ⟨h2, _⟩ := Printer.newline_coupling h
  unfold Printer.raw_newline
  exact ⟨{
    width_eq := h2.width_eq
    line_width_eq := h2.line_width_eq
    indent_eq := h2.indent_eq
    needs_indent_eq := rfl
    markup_eq := h2.markup_eq
    mode_a := h2.mode_a
    mode_n := h2.mode_n
    closed := h2.closed
    out_rel := h2.out_rel }, rfl⟩

theorem Printer.flush_newline_coupling {a n : Printer} (h : MarkupRel a n) :
    MarkupRel (a.flush_newline).1 (n.flush_newline).1 ∧
      (a.flush_newline).2 = (n.flush_newline).2 := by
  unfold Printer.flush_newline
  rw [h.needs_indent_eq]
  split
  · exact ⟨h, rfl⟩
  · exact ⟨(Printer.newline_coupling h).1, rfl⟩

end Rcl

namespace Rcl

theorem MarkupRel.set_indent {a n : Printer} (h : MarkupRel a n) (ia ib : Nat)
    (hi : ia = ib) : MarkupRel { a with indent := ia } { n with indent := ib } :=
  { width_eq := h.width_eq
    line_width_eq := h.line_width_eq
    indent_eq := hi
    needs_indent_eq := h.needs_indent_eq
    markup_eq := h.markup_eq
    mode_a := h.mode_a
    mode_n := h.mode_n
    closed := h.closed
    out_rel := h.out_rel }

theorem MarkupRel.markup_enter {a n : Printer} (h : MarkupRel a n)
    (mk : Rcl.Markup) :
    MarkupRel
      { a with out := a.out ++ a.markup_mode.get_switch a.markup (some mk)
               markup := some mk }
      { n with out := n.out ++ n.markup_mode.get_switch n.markup (some mk)
               markup := some mk } := by
  obtain ⟨hs1, hs2⟩ := strip_append_esc a.out
    (a.markup_mode.get_switch a.markup (some mk)) h.closed
    (strip_state_get_switch a.markup_mode a.markup (some mk))
  exact {
    width_eq := h.width_eq
    line_width_eq := h.line_width_eq
    indent_eq := h.indent_eq
    needs_indent_eq := h.needs_indent_eq
    markup_eq := rfl
    mode_a := h.mode_a
    mode_n := h.mode_n
    closed := hs2
    out_rel := by
      show normalize (strip_ansi (a.out ++ _)) = normalize (n.out ++ _)
      rw [h.mode_n]
      show _ = normalize (n.out ++ [])
      rw [List.append_nil, hs1, h.out_rel] }

theorem MarkupRel.markup_exit {a0 n0 q1 q2 : Printer} (h0 : MarkupRel a0 n0)
    (h : MarkupRel q1 q2) (mk : Rcl.Markup) :
    MarkupRel
      { q1 with markup := a0.markup
                out := q1.out ++ a0.markup_mode.get_switch (some mk) a0.markup }
      { q2 with markup := n0.markup
                out := q2.out ++ n0.markup_mode.get_switch (some mk) n0.markup } := by
  obtain ⟨hs1, hs2⟩ := strip_append_esc q1.out
    (a0.markup_mode.get_switch (some mk) a0.markup) h.closed
    (strip_state_get_switch a0.markup_mode (some mk) a0.markup)
  exact {
    width_eq := h.width_eq
    line_width_eq := h.line_width_eq
    indent_eq := h.indent_eq
    needs_indent_eq := h.needs_indent_eq
    markup_eq := h0.markup_eq
    mode_a := h.mode_a
    mode_n := h.mode_n
    closed := hs2
    out_rel := by
      show normalize (strip_ansi (q1.out ++ _)) = normalize (q2.out ++ _)
      rw [h0.mode_n]
      show _ = normalize (q2.out ++ [])
      rw [List.append_nil, hs1, h.out_rel] }

mutual

/-- Rendering the same well-formed document from two coupled printers, one
in Ansi mode and one in None mode, keeps the printers coupled and produces
the same fit results, hence the same layout decisions. -/
theorem Doc.markup_coupling : ∀ (d : Doc) (a n : Printer) (m : Mode),
    d.nl_free = true → d.esc_free = true → MarkupRel a n →
    MarkupRel (d.print_to a m).1 (d.print_to n m).1 ∧
      (d.print_to a m).2 = (d.print_to n m).2
  | Doc.Str c w, a, n, m, hnl, hesc, h =>
      Printer.push_str_coupling h c w (List.not_mem_of_all_ne hnl)
        (List.not_mem_of_all_ne hesc)
  | Doc.Strng c w, a, n, m, hnl, hesc, h =>
      Printer.push_str_coupling h c w (List.not_mem_of_all_ne hnl)
        (List.not_mem_of_all_ne hesc)
  | Doc.WhenTall c w, a, n, m, hnl, hesc, h => by
      cases m
      · exact ⟨h, rfl⟩
      · exact Printer.push_str_coupling h c w (List.not_mem_of_all_ne hnl)
          (List.not_mem_of_all_ne hesc)
  | Doc.Sep, a, n, m, hnl, hesc, h => by
      cases m
      · exact Printer.push_char_coupling h ' ' (by decide) (by decide)
      · exact Printer.newline_coupling h
  | Doc.SoftBreak, a, n, m, hnl, hesc, h => by
      cases m
      · exact ⟨h, rfl⟩
      · exact Printer.newline_coupling h
  | Doc.HardBreak, a, n, m, hnl, hesc, h => by
      cases m
      · exact ⟨h, rfl⟩
      · exact Printer.newline_coupling h
  | Doc.RawBreak, a, n, m, hnl, hesc, h => by
      cases m
      · exact ⟨h, rfl⟩
      · exact Printer.raw_newline_coupling h
  | Doc.Concat children, a, n, m, hnl, hesc, h =>
      Doc.markup_coupling_list children a n m PrintResult.Fits rfl hnl hesc h
  | Doc.Group inner, a, n, m, hnl, hesc, h => by
      by_cases hf : inner.is_forced_tall = true
      · rw [Doc.print_group_forced inner a m hf, Doc.print_group_forced inner n m hf]
        exact Doc.markup_coupling inner a n m hnl hesc h
      · rw [Bool.not_eq_true] at hf
        cases m
        · rw [Doc.print_group_wide inner a hf, Doc.print_group_wide inner n hf]
          exact Doc.markup_coupling inner a n Mode.Wide hnl hesc h
        · rw [Doc.print_group_tall inner a hf, Doc.print_group_tall inner n hf]
          obtain ⟨hwrel, hwres⟩ := Doc.markup_coupling inner a n Mode.Wide hnl hesc h
          cases hrn : (inner.print_to n Mode.Wide).2
          · have hra : (inner.print_to a Mode.Wide).2 = PrintResult.Fits :=
              hwres.trans hrn
            have hca := Printer.try_commit a (fun q => inner.print_to q Mode.Wide) hra
            have hcn := Printer.try_commit n (fun q => inner.print_to q Mode.Wide) hrn
            simp only [hca, hcn, hra, hrn]
            exact ⟨hwrel, trivial⟩
          · have hra : (inner.print_to a Mode.Wide).2 = PrintResult.Overflow :=
              hwres.trans hrn
            have hba := Printer.try_wide_rollback inner a hra
            have hbn := Printer.try_wide_rollback inner n hrn
            have hsa : (a.try_ (fun q => inner.print_to q Mode.Wide)).2 =
                PrintResult.Overflow :=
              (a.try_snd (fun q => inner.print_to q Mode.Wide)).trans hra
            have hsn : (n.try_ (fun q => inner.print_to q Mode.Wide)).2 =
                PrintResult.Overflow :=
              (n.try_snd (fun q => inner.print_to q Mode.Wide)).trans hrn
            simp only [hsa, hsn, hba, hbn]
            exact Doc.markup_coupling inner a n Mode.Tall hnl hesc h
  | Doc.Indent inner, a, n, m, hnl, hesc, h => by
      cases m
      · exact Doc.markup_coupling inner a n Mode.Wide hnl hesc h
      · rw [Doc.print_indent_tall, Doc.print_indent_tall]
        unfold Printer.indented
        obtain ⟨hrel, hres⟩ := Doc.markup_coupling inner
          { a with indent := a.indent + 2 } { n with indent := n.indent + 2 }
          Mode.Tall hnl hesc (h.set_indent _ _ (by rw [h.indent_eq]))
        exact ⟨hrel.set_indent _ _ (by rw [hrel.indent_eq]), hres⟩
  | Doc.FlushIndent inner, a, n, m, hnl, hesc, h => by
      cases m
      · exact Doc.markup_coupling inner a n Mode.Wide hnl hesc h
      · rw [Doc.print_flush_tall, Doc.print_flush_tall]
        obtain ⟨hfrel, hfres⟩ := Printer.flush_newline_coupling h
        simp only
        rw [← hfres]
        by_cases hfa : (a.flush_newline).2 = true
        · rw [if_pos hfa, if_pos hfa]
          unfold Printer.indented
          obtain ⟨hrel, hres⟩ := Doc.markup_coupling inner
            { (a.flush_newline).1 with indent := (a.flush_newline).1.indent + 2 }
            { (n.flush_newline).1 with indent := (n.flush_newline).1.indent + 2 }
            Mode.Tall hnl hesc (hfrel.set_indent _ _ (by rw [hfrel.indent_eq]))
          exact ⟨hrel.set_indent _ _ (by rw [hrel.indent_eq]), hres⟩
        · rw [if_neg hfa, if_neg hfa]
          exact Doc.markup_coupling inner (a.flush_newline).1 (n.flush_newline).1
            Mode.Tall hnl hesc hfrel
  | Doc.Markup mk inner, a, n, m, hnl, hesc, h => by
      rw [Doc.print_markup, Doc.print_markup]
      unfold Printer.with_markup
      simp only
      obtain ⟨hrel, hres⟩ := Doc.markup_coupling inner
        { a with out := a.out ++ a.markup_mode.get_switch a.markup (some mk)
                 markup := some mk }
        { n with out := n.out ++ n.markup_mode.get_switch n.markup (some mk)
                 markup := some mk }
        m hnl hesc (h.markup_enter mk)
      exact ⟨MarkupRel.markup_exit h hrel mk, hres⟩

theorem Doc.markup_coupling_list : ∀ (ds : List Doc) (a n : Printer) (m : Mode)
    (r : PrintResult) (hr : r = r),
    Doc.nl_free_list ds = true → Doc.esc_free_list ds = true → MarkupRel a n →
    MarkupRel (Doc.print_concat ds a m r).1 (Doc.print_concat ds n m r).1 ∧
      (Doc.print_concat ds a m r).2 = (Doc.print_concat ds n m r).2
  | [], a, n, m, r, _, _, _, h => ⟨h, rfl⟩
  | d :: ds, a, n, m, r, _, hnl, hesc, h => by
      have hnld : d.nl_free = true := by
        simp only [Doc.nl_free_list, Bool.and_eq_true] at hnl
        exact hnl.1
      have hnlds : Doc.nl_free_list ds = true := by
        simp only [Doc.nl_free_list, Bool.and_eq_true] at hnl
        exact hnl.2
      have hescd : d.esc_free = true := by
        simp only [Doc.esc_free_list, Bool.and_eq_true] at hesc
        exact hesc.1
      have hescds : Doc.esc_free_list ds = true := by
        simp only [Doc.esc_free_list, Bool.and_eq_true] at hesc
        exact hesc.2
      rw [Doc.print_concat_cons, Doc.print_concat_cons]
      obtain ⟨hrel, hres⟩ := Doc.markup_coupling d a n m hnld hescd h
      rw [hres]
      exact Doc.markup_coupling_list ds (d.print_to a m).1 (d.print_to n m).1 m
        ((d.print_to n m).2.max r) rfl hnlds hescds hrel

end

end Rcl

namespace Rcl

/-- C3 counterexample: markup can alter the emitted text beyond adding
escape sequences.  When a markup scope that ends in a space is followed by
a line break, the closing escape sequence sits between the space and the
break, so the trailing space trim in newline removes nothing, while in
None mode the space is trimmed: stripping the escapes from the Ansi render
leaves a space before the line break that the None render does not have. -/
theorem C3_counterexample :
    strip_ansi ((Doc.Concat [Doc.Markup Markup.Error (Doc.Str "a ".toList 2),
        Doc.HardBreak]).println ⟨80, MarkupMode.Ansi⟩) ≠
      (Doc.Concat [Doc.Markup Markup.Error (Doc.Str "a ".toList 2),
        Doc.HardBreak]).println ⟨80, MarkupMode.None⟩ := by
  decide

/-- C3 (amended): for every document whose text fragments contain no line
break and no escape character, and every width, stripping all ANSI escape
sequences from the Ansi mode rendering and then deleting the spaces that
sit immediately before a line break yields the None mode rendering with
the same deletion applied: markup never alters the emitted text or the
chosen line breaks, except that it can shield spaces before a line break
from the trailing space trim. -/
theorem C3_markup_stripping (d : Doc) (w : Nat)
    (hnl : d.nl_free = true) (hesc : d.esc_free = true) :
    normalize (strip_ansi (d.println ⟨w, MarkupMode.Ansi⟩)) =
      normalize (d.println ⟨w, MarkupMode.None⟩) := by
  have h0 : MarkupRel (Printer.new ⟨w, MarkupMode.Ansi⟩)
      (Printer.new ⟨w, MarkupMode.None⟩) :=
    { width_eq := rfl
      line_width_eq := rfl
      indent_eq := rfl
      needs_indent_eq := rfl
      markup_eq := rfl
      mode_a := rfl
      mode_n := rfl
      closed := rfl
      out_rel := rfl }
  obtain ⟨hrel, _⟩ := Doc.markup_coupling d (Printer.new ⟨w, MarkupMode.Ansi⟩)
    (Printer.new ⟨w, MarkupMode.None⟩) Mode.Tall hnl hesc h0
  obtain ⟨hfrel, _⟩ := Printer.flush_newline_coupling hrel
  exact hfrel.out_rel

/-- Witness for C3 at a concrete input. -/
theorem C3_markup_stripping_witness :
    (Doc.Concat [Doc.Markup Markup.Error (Doc.Str "a ".toList 2),
      Doc.HardBreak]).nl_free = true ∧
    (Doc.Concat [Doc.Markup Markup.Error (Doc.Str "a ".toList 2),
      Doc.HardBreak]).esc_free = true ∧
    normalize (strip_ansi ((Doc.Concat [Doc.Markup Markup.Error
        (Doc.Str "a ".toList 2), Doc.HardBreak]).println ⟨80, MarkupMode.Ansi⟩)) =
      normalize ((Doc.Concat [Doc.Markup Markup.Error (Doc.Str "a ".toList 2),
        Doc.HardBreak]).println ⟨80, MarkupMode.None⟩) :=
  ⟨by decide, by decide,
    C3_markup_stripping
      (Doc.Concat [Doc.Markup Markup.Error (Doc.Str "a ".toList 2), Doc.HardBreak])
      80 (by decide) (by decide)⟩

end Rcl
